import Mathlib

/-!
# Snake on a 5x5 LED matrix

A shallow embedding of `main.cpp`: the wrap-around axis value `Dimension`, the
doubly linked `List<T>` of body segments, the `Snake` model and the `Game`
controller with its per-tick transition `Game::move`.

Conventions of the embedding.

* A C++ `int` is an element of `Int` within `[INT_MIN, INT_MAX]`, 32 bits
  wide. The results of `int` arithmetic (`cur++`, `cur--`, `cur - i`,
  `score++`) are reduced by `wrapInt` to that range, the two's complement
  result the machine delivers where the C++ standard leaves overflow open.
* `List<T>` is the sequence of its node payloads from `head` to `tail`; a
  `Node<T> *` is an `Option T` with `NULL` as `none`.
* A method that mutates its object returns the new object; a method that also
  returns a value returns a pair.
* The display, the random source and the timer are the hardware collaborator
  of the game; calls to them (`uBit.display.print`, `uBit.sleep`) have no
  effect on the state described here and are left out.
-/

namespace MicrobitSnake

/-! ## Constants -/

def SNAKE_HEAD_PIXEL_BRIGHTNESS : Nat := 150

def SNAKE_BONE_PIXEL_BRIGHTNESS : Nat := 15

def SNAKE_FOOD_PIXEL_BRIGHTNESS : Nat := 255

/-- The least value of a 32-bit `int`. -/
def INT_MIN : Int := -2147483648

/-- The greatest value of a 32-bit `int`. -/
def INT_MAX : Int := 2147483647

/-- The result of 32-bit `int` arithmetic: the value reduced modulo `2^32`
into `[INT_MIN, INT_MAX]`. -/
def wrapInt (v : Int) : Int := (v + 2147483648) % 4294967296 - 2147483648

/-- A value that an `int` can hold. -/
def isInt (v : Int) : Prop := INT_MIN ≤ v ∧ v ≤ INT_MAX

instance (v : Int) : Decidable (isInt v) := by
  unfold isInt; infer_instance

/-! ## `List<T>` -/

/-- The class `List<T>`: the payloads of the linked nodes, head first. -/
abbrev NodeList (T : Type) := List T

namespace NodeList

/-- Method `List::prepend`: a `NULL` node is ignored; on the empty list the node
becomes both head and tail, otherwise the old head is appended to the node and
the node becomes the head. -/
def prepend {T : Type} (l : NodeList T) (node : Option T) : NodeList T :=
  match node with
  | none => l
  | some n =>
    match l with
    | [] => [n]
    | h :: t => n :: h :: t

/-- Method `List::removeTail`: detaches the tail node and returns it, `NULL` on the
empty list. -/
def removeTail {T : Type} (l : NodeList T) : Option T × NodeList T :=
  match l.getLast? with
  | none => (none, l)
  | some n => (some n, l.dropLast)

/-- Method `List::getHead`. -/
def getHead {T : Type} (l : NodeList T) : Option T := l.head?

/-- Method `List::getTail`. -/
def getTail {T : Type} (l : NodeList T) : Option T := l.getLast?

/-- Method `List::cleanup`: deletes every node. -/
def cleanup {T : Type} (_l : NodeList T) : NodeList T := []

end NodeList

/-! ## `Dimension` -/

/-- The class `Dimension`: a value `cur` that cycles within `[start, end]`
(the field `end` is spelled `end_`). -/
structure Dimension where
  start : Int
  end_ : Int
  cur : Int
deriving DecidableEq

namespace Dimension

/-- Constructor `Dimension(int start, int end)`. -/
def new2 (start end_ : Int) : Dimension := ⟨start, end_, start⟩

/-- Constructor `Dimension(int start, int end, int cur)`. -/
def new3 (start end_ cur : Int) : Dimension := ⟨start, end_, cur⟩

/-- The `operator ++(int)`. -/
def inc (a : Dimension) : Dimension :=
  let a1 := { a with cur := wrapInt (a.cur + 1) }
  if a1.cur > a1.end_ then { a1 with cur := a1.start } else a1

/-- The `operator --(int)`. -/
def dec (a : Dimension) : Dimension :=
  let a1 := { a with cur := wrapInt (a.cur - 1) }
  if a1.cur < a1.start then { a1 with cur := a1.end_ } else a1

/-- The `operator -(int i)`. -/
def minus (a : Dimension) (i : Int) : Int :=
  let r := wrapInt (a.cur - i)
  if r < a.start then a.end_ else r

/-- The `operator int()`. -/
def toInt (a : Dimension) : Int := a.cur

/-- The three fields hold values of an `int`. -/
def intFields (a : Dimension) : Prop := isInt a.start ∧ isInt a.end_ ∧ isInt a.cur

instance (a : Dimension) : Decidable a.intFields := by
  unfold intFields; infer_instance

end Dimension

/-! ## `SnakeBone` -/

/-- The class `SnakeBone`: one segment, an axis value for `x` and for `y`. -/
structure SnakeBone where
  x : Dimension
  y : Dimension
deriving DecidableEq

namespace SnakeBone

/-- Constructor `SnakeBone(startx, endx, curx, starty, endy, cury)`. -/
def new (startx endx curx starty endy cury : Int) : SnakeBone :=
  ⟨Dimension.new3 startx endx curx, Dimension.new3 starty endy cury⟩

/-- Method `SnakeBone::getX`. -/
def getX (b : SnakeBone) : Dimension := b.x

/-- Method `SnakeBone::getY`. -/
def getY (b : SnakeBone) : Dimension := b.y

/-- The coordinate of a segment, the pair of its converted axis values. -/
def coord (b : SnakeBone) : Int × Int := (b.getX.toInt, b.getY.toInt)

/-- A bone as the class `Snake` builds it: both axes range over `[0, 4]`.
`Snake` passes no other bounds to `SnakeBone` and its bones are private. -/
def boardAxes (b : SnakeBone) : Prop :=
  b.x.start = 0 ∧ b.x.end_ = 4 ∧ b.y.start = 0 ∧ b.y.end_ = 4

instance (b : SnakeBone) : Decidable b.boardAxes := by
  unfold boardAxes; infer_instance

end SnakeBone

/-! ## `Snake` -/

/-- The enumeration `Snake::Direction`. -/
inductive Direction where
  | UP
  | DOWN
  | LEFT
  | RIGHT
deriving DecidableEq

/-- The heading pointing the other way. -/
def Direction.opposite : Direction → Direction
  | .UP => .DOWN
  | .DOWN => .UP
  | .LEFT => .RIGHT
  | .RIGHT => .LEFT

/-- The class `Snake`: the bones, head first, and the heading `d`. -/
structure Snake where
  bones : NodeList SnakeBone
  d : Direction
deriving DecidableEq

namespace Snake

/-- Constructor `Snake()`: one bone at (2, 2), heading up. -/
def new : Snake :=
  ⟨NodeList.prepend [] (some (SnakeBone.new 0 4 2 0 4 2)), .UP⟩

/-- Method `Snake::_getNodeX`. -/
def _getNodeX (node : Option SnakeBone) : Dimension :=
  match node with
  | some b => b.getX
  | none => Dimension.new3 (-1) (-1) (-1)

/-- Method `Snake::_getNodeY`. -/
def _getNodeY (node : Option SnakeBone) : Dimension :=
  match node with
  | some b => b.getY
  | none => Dimension.new3 (-1) (-1) (-1)

/-- Method `Snake::getHead`. -/
def getHead (s : Snake) : Option SnakeBone := NodeList.getHead s.bones

/-- Method `Snake::getHeadX`. -/
def getHeadX (s : Snake) : Dimension := _getNodeX (NodeList.getHead s.bones)

/-- Method `Snake::getHeadY`. -/
def getHeadY (s : Snake) : Dimension := _getNodeY (NodeList.getHead s.bones)

/-- Method `Snake::getTailX`. -/
def getTailX (s : Snake) : Dimension := _getNodeX (NodeList.getTail s.bones)

/-- Method `Snake::getTailY`. -/
def getTailY (s : Snake) : Dimension := _getNodeY (NodeList.getTail s.bones)

/-- The position of the new head that `Snake::grow` computes: the head's axis
values, one of them stepped along the heading. -/
def nextHead (s : Snake) : Dimension × Dimension :=
  let nextX := s.getHeadX
  let nextY := s.getHeadY
  match s.d with
  | .UP => (nextX, nextY.dec)
  | .DOWN => (nextX, nextY.inc)
  | .LEFT => (nextX.dec, nextY)
  | .RIGHT => (nextX.inc, nextY)

/-- Method `Snake::grow`. -/
def grow (s : Snake) : Snake :=
  let next := s.nextHead
  let node := some (SnakeBone.new 0 4 next.1.toInt 0 4 next.2.toInt)
  { s with bones := NodeList.prepend s.bones node }

/-- Method `Snake::reduce`. -/
def reduce (s : Snake) : Snake :=
  { s with bones := (NodeList.removeTail s.bones).2 }

/-- Method `Snake::left`. -/
def left (s : Snake) : Snake :=
  match s.d with
  | .UP => { s with d := .LEFT }
  | .DOWN => { s with d := .LEFT }
  | .LEFT => { s with d := .DOWN }
  | .RIGHT => { s with d := .UP }

/-- Method `Snake::right`. -/
def right (s : Snake) : Snake :=
  match s.d with
  | .UP => { s with d := .RIGHT }
  | .DOWN => { s with d := .RIGHT }
  | .LEFT => { s with d := .UP }
  | .RIGHT => { s with d := .DOWN }

/-- Method `Snake::reset`. -/
def reset (s : Snake) : Snake :=
  let node := some (SnakeBone.new 0 4 2 0 4 2)
  { bones := NodeList.prepend (NodeList.cleanup s.bones) node, d := .UP }

/-- Method `Snake::getDirection`. -/
def getDirection (s : Snake) : Direction := s.d

/-- The coordinates of the segments, head first. -/
def coords (s : Snake) : List (Int × Int) := s.bones.map SnakeBone.coord

/-- Every bone is as the class `Snake` builds it, with axes over `[0, 4]`. -/
def boardAxes (s : Snake) : Prop := ∀ b ∈ s.bones, b.boardAxes

instance (s : Snake) : Decidable s.boardAxes := by
  unfold boardAxes; infer_instance

end Snake

/-! ## The brightness grid -/

/-- Modelled from the spec: the result of reading the grid off the board, which
the spec leaves open; the micro:bit runtime answers with its error code
`MICROBIT_INVALID_PARAMETER`. -/
def MICROBIT_INVALID_PARAMETER : Int := -1001

/-- Modelled from the spec: the class `MicroBitImage` of the micro:bit runtime,
which is not part of the repository. It is the board-sized mapping from
coordinate to brightness value; the game only builds 5x5 images. -/
structure MicroBitImage where
  pixel : Int → Int → Nat

namespace MicroBitImage

/-- Modelled from the spec: `MicroBitImage(5, 5)`, the grid with every cell
empty (0). -/
def new5x5 : MicroBitImage := ⟨fun _ _ => 0⟩

/-- Modelled from the spec: `MicroBitImage::setPixelValue(x, y, value)` stores
the brightness of one cell; a coordinate off the 5x5 board is rejected and
the image is left as it was. -/
def setPixelValue (img : MicroBitImage) (x y : Int) (value : Nat) : MicroBitImage :=
  if x ≥ 5 ∨ y ≥ 5 ∨ x < 0 ∨ y < 0 then img
  else ⟨fun a b => if a = x ∧ b = y then value else img.pixel a b⟩

/-- Modelled from the spec: `MicroBitImage::getPixelValue(x, y)` reads the
brightness of one cell; a coordinate off the 5x5 board yields the error code
`MICROBIT_INVALID_PARAMETER`. -/
def getPixelValue (img : MicroBitImage) (x y : Int) : Int :=
  if x ≥ 5 ∨ y ≥ 5 ∨ x < 0 ∨ y < 0 then MICROBIT_INVALID_PARAMETER
  else (img.pixel x y : Int)

end MicroBitImage

/-! ## `Game` -/

/-- The class `Game`, without the reference to the device. -/
structure Game where
  foodx : Int
  foody : Int
  snake : Snake
  image : MicroBitImage
  score : Int
  buttonPressed : Bool

namespace Game

/-- Constructor `Game(MicroBit &)`. -/
def new : Game :=
  { foodx := -1, foody := -1, snake := Snake.new, image := MicroBitImage.new5x5,
    score := 0, buttonPressed := false }

/-- Method `Game::left`. -/
def left (g : Game) : Game :=
  if !g.buttonPressed then
    { g with buttonPressed := true, snake := g.snake.left }
  else g

/-- Method `Game::right`. -/
def right (g : Game) : Game :=
  if !g.buttonPressed then
    { g with buttonPressed := true, snake := g.snake.right }
  else g

/-- Method `Game::move`: the returned flag is `false` on game over. -/
def move (g : Game) : Bool × Game :=
  -- Dim old head
  let x := g.snake.getHeadX
  let y := g.snake.getHeadY
  let g := { g with image := g.image.setPixelValue x.toInt y.toInt SNAKE_BONE_PIXEL_BRIGHTNESS }
  let g := { g with snake := g.snake.grow }
  let nextX := g.snake.getHeadX
  let nextY := g.snake.getHeadY
  -- check if we grew by eating
  let g : Game :=
    if nextX.toInt = g.foodx ∧ nextY.toInt = g.foody then
      -- food gone
      { g with foodx := -1, foody := -1, score := wrapInt (g.score + 1) }
    else
      -- Switch off end
      let endx := g.snake.getTailX.toInt
      let endy := g.snake.getTailY.toInt
      let g : Game :=
        if endx ≠ -1 ∧ endy ≠ -1 then
          { g with image := g.image.setPixelValue endx endy 0 }
        else g
      { g with snake := g.snake.reduce }
  -- Check snake bite
  if g.image.getPixelValue nextX.toInt nextY.toInt = 15 then
    -- Game Over
    (false, g)
  else
    -- Turn on head
    let img := g.image.setPixelValue nextX.toInt nextY.toInt SNAKE_HEAD_PIXEL_BRIGHTNESS
    (true, { g with image := img, buttonPressed := false })

/-- A turn request, as raised by button A (`left`) or button B (`right`). -/
inductive TurnRequest where
  | left
  | right
deriving DecidableEq

/-- The handler of one turn request: `onButtonA` calls `Game::left` and
`onButtonB` calls `Game::right`. -/
def request (g : Game) : TurnRequest → Game
  | .left => g.left
  | .right => g.right

/-- A finite sequence of turn requests handled in order, no move in between. -/
def requests (g : Game) (rs : List TurnRequest) : Game := rs.foldl request g

/-- Method `Game::isGoodFood`. -/
def isGoodFood (g : Game) (x y : Int) : Bool :=
  let ret := decide (g.image.getPixelValue x y = 0)
  if ret then
    match g.snake.getDirection with
    | .UP => decide (x ≠ g.snake.getHeadX.toInt)
    | .DOWN => decide (x ≠ g.snake.getHeadX.toInt)
    | .LEFT => decide (y ≠ g.snake.getHeadY.toInt)
    | .RIGHT => decide (y ≠ g.snake.getHeadY.toInt)
  else ret

/-- Method `Game::reset`. -/
def reset (g : Game) : Game :=
  -- cleanup snake and state
  let g := { g with snake := g.snake.reset }
  let g := { g with foodx := -1, foody := -1, score := 0, image := MicroBitImage.new5x5 }
  let x := g.snake.getHeadX
  let y := g.snake.getHeadY
  { g with image := g.image.setPixelValue x.toInt y.toInt SNAKE_HEAD_PIXEL_BRIGHTNESS }

end Game

/-! ## The wrapped neighbour, as the specification words it -/

/-- The cell one step from `(x, y)` along a heading with wraparound on
`[0, 4]`, written from the specification's words: up is `(x, y - 1)` or
`(x, 4)` when `y = 0`, down is `(x, y + 1)` or `(x, 0)` when `y = 4`, left is
`(x - 1, y)` or `(4, y)` when `x = 0`, right is `(x + 1, y)` or `(0, y)` when
`x = 4`. -/
def wrappedNeighbour (d : Direction) (p : Int × Int) : Int × Int :=
  match d with
  | .UP => if p.2 = 0 then (p.1, 4) else (p.1, p.2 - 1)
  | .DOWN => if p.2 = 4 then (p.1, 0) else (p.1, p.2 + 1)
  | .LEFT => if p.1 = 0 then (4, p.2) else (p.1 - 1, p.2)
  | .RIGHT => if p.1 = 4 then (0, p.2) else (p.1 + 1, p.2)

/-! ## Notions used to state the properties -/

/-- The test of `Game::move` for "we grew by eating": the head after
`Snake::grow` sits at `(foodx, foody)`. -/
def Game.eats (g : Game) : Prop :=
  g.snake.grow.getHeadX.toInt = g.foodx ∧ g.snake.grow.getHeadY.toInt = g.foody

instance (g : Game) : Decidable g.eats := by
  unfold Game.eats; infer_instance

/-- The test of `Game::play` for "no food": `foodx == -1 && foody == -1`. -/
def Game.foodAbsent (g : Game) : Prop := g.foodx = -1 ∧ g.foody = -1

instance (g : Game) : Decidable g.foodAbsent := by
  unfold Game.foodAbsent; infer_instance

/-- A coordinate of the 5x5 board, `[0, 4] x [0, 4]`. -/
def onBoard (p : Int × Int) : Prop := 0 ≤ p.1 ∧ p.1 ≤ 4 ∧ 0 ≤ p.2 ∧ p.2 ≤ 4

instance (p : Int × Int) : Decidable (onBoard p) := by
  unfold onBoard; infer_instance

/-- The row and column indices of the board. -/
def boardIndices : List Int := [0, 1, 2, 3, 4]

/-- The brightness a consistent grid shows at a cell: 150 at the head, 15 at
every other segment, 255 at the food, 0 elsewhere. -/
def Game.expectedPixel (g : Game) (p : Int × Int) : Nat :=
  if g.snake.coords.head? = some p then SNAKE_HEAD_PIXEL_BRIGHTNESS
  else if p ∈ g.snake.coords then SNAKE_BONE_PIXEL_BRIGHTNESS
  else if p = (g.foodx, g.foody) then SNAKE_FOOD_PIXEL_BRIGHTNESS
  else 0

/-- A consistent game state: the snake is non-empty and built by the class
`Snake`, its segment coordinates are pairwise distinct and on the board, the
food is absent or on a board cell that holds no segment, and every cell of
the grid shows the brightness expected there. -/
def Game.consistent (g : Game) : Prop :=
  g.snake.bones ≠ [] ∧ g.snake.boardAxes ∧ g.snake.coords.Nodup ∧
  (∀ p ∈ g.snake.coords, onBoard p) ∧
  (g.foodAbsent ∨ (onBoard (g.foodx, g.foody) ∧ (g.foodx, g.foody) ∉ g.snake.coords)) ∧
  ∀ x ∈ boardIndices, ∀ y ∈ boardIndices,
    g.image.getPixelValue x y = (g.expectedPixel (x, y) : Int)

instance (g : Game) : Decidable g.consistent := by
  unfold Game.consistent; infer_instance

/-- The scenario of a length-1 snake at (2, 2) heading up with food at
(2, 1) and score 0. -/
def scenarioFoodAhead : Game :=
  { foodx := 2, foody := 1, snake := Snake.new,
    image := (MicroBitImage.new5x5.setPixelValue 2 2 150).setPixelValue 2 1 255,
    score := 0, buttonPressed := false }

/-- The grid as `Game::move` has it at the snake-bite check: the old head
dimmed and, when no food is eaten, the cell of the tail switched off. -/
def Game.imageAtBite (g : Game) : MicroBitImage :=
  let x := g.snake.getHeadX
  let y := g.snake.getHeadY
  let dimmed := g.image.setPixelValue x.toInt y.toInt SNAKE_BONE_PIXEL_BRIGHTNESS
  if g.eats then dimmed
  else
    let endx := g.snake.grow.getTailX.toInt
    let endy := g.snake.grow.getTailY.toInt
    if endx ≠ -1 ∧ endy ≠ -1 then dimmed.setPixelValue endx endy 0 else dimmed

/-- The coordinate of the head after `Snake::grow`, which `Game::move` reads
as `(nextX, nextY)`. -/
def Game.nextCoord (g : Game) : Int × Int :=
  (g.snake.grow.getHeadX.toInt, g.snake.grow.getHeadY.toInt)

/-- A state about to bite itself: the head at (1, 2) heads right into the
segment at (2, 2) of a five-segment snake; no food. -/
def scenarioBite : Game :=
  { foodx := -1, foody := -1,
    snake := ⟨[SnakeBone.new 0 4 1 0 4 2, SnakeBone.new 0 4 1 0 4 1, SnakeBone.new 0 4 2 0 4 1,
      SnakeBone.new 0 4 2 0 4 2, SnakeBone.new 0 4 3 0 4 2], Direction.RIGHT⟩,
    image := ((((MicroBitImage.new5x5.setPixelValue 1 2 150).setPixelValue 1 1 15).setPixelValue
      2 1 15).setPixelValue 2 2 15).setPixelValue 3 2 15,
    score := 4, buttonPressed := false }

/-- Snake states reachable from a fresh or reset snake by `left`, `right`,
`grow` and `reduce`, where `reduce` is never applied to a length-1 snake. -/
inductive Snake.Reachable : Snake → Prop where
  | fresh : Snake.Reachable Snake.new
  | reset (s : Snake) : Snake.Reachable s.reset
  | left (s : Snake) : Snake.Reachable s → Snake.Reachable s.left
  | right (s : Snake) : Snake.Reachable s → Snake.Reachable s.right
  | grow (s : Snake) : Snake.Reachable s → Snake.Reachable s.grow
  | reduce (s : Snake) : Snake.Reachable s → s.bones.length ≠ 1 → Snake.Reachable s.reduce

/-- The grid obtained from the grid before the tick by dimming the old head
and, when no food is eaten, clearing the old tail cell; written from the
specification's words, with head and tail those of the snake before the
tick. -/
def Game.dimmedRetracted (g : Game) : MicroBitImage :=
  let dimmed := g.image.setPixelValue g.snake.getHeadX.toInt g.snake.getHeadY.toInt
    SNAKE_BONE_PIXEL_BRIGHTNESS
  if g.eats then dimmed
  else dimmed.setPixelValue g.snake.getTailX.toInt g.snake.getTailY.toInt 0

/-- The food placement of `Game::play` once a cell `(x, y)` is accepted: the
cell becomes the food and is lit at food brightness. -/
def Game.placeFood (g : Game) (x y : Int) : Game :=
  let g := { g with foodx := x, foody := y }
  { g with image := g.image.setPixelValue g.foodx g.foody 255 }

/-- The heading test of `Game::isGoodFood` on a cell: under heading Up or
Down its `x` differs from the head's `x`, under heading Left or Right its `y`
differs from the head's `y`. -/
def Game.offAxis (g : Game) (c : Int × Int) : Prop :=
  ((g.snake.d = Direction.UP ∨ g.snake.d = Direction.DOWN) → c.1 ≠ g.snake.getHeadX.toInt) ∧
  ((g.snake.d = Direction.LEFT ∨ g.snake.d = Direction.RIGHT) → c.2 ≠ g.snake.getHeadY.toInt)

instance (g : Game) (c : Int × Int) : Decidable (g.offAxis c) := by
  unfold Game.offAxis; infer_instance

/-- Food alignment: a present food is not aligned with the head along the
heading. -/
def Game.foodOffAxis (g : Game) : Prop :=
  ¬ g.foodAbsent → g.offAxis (g.foodx, g.foody)

instance (g : Game) : Decidable g.foodOffAxis := by
  unfold Game.foodOffAxis; infer_instance

/-- Game states reachable from `Game::reset` by successful moves, accepted
turn requests and food placements as `Game::play` makes them (no food
present, a cell drawn from `[0, 5) x [0, 5)` that passes `isGoodFood`),
together with a flag that records the history and restrains no step: it is
`true` when a turn request has been accepted since the food was last placed,
or since the reset when no food has been placed yet. -/
inductive Game.ReachableTracked : Game → Bool → Prop where
  | reset (g : Game) : Game.ReachableTracked g.reset false
  | move (g : Game) (t : Bool) : Game.ReachableTracked g t → g.move.1 = true →
      Game.ReachableTracked g.move.2 t
  | turn (g : Game) (t : Bool) (r : Game.TurnRequest) : Game.ReachableTracked g t →
      g.buttonPressed = false → Game.ReachableTracked (g.request r) true
  | food (g : Game) (t : Bool) (x y : Int) : Game.ReachableTracked g t → g.foodAbsent →
      x ∈ boardIndices → y ∈ boardIndices → g.isGoodFood x y = true →
      Game.ReachableTracked (g.placeFood x y) false

/-- Reachable game states, whatever their history. -/
def Game.Reachable (g : Game) : Prop := ∃ t : Bool, Game.ReachableTracked g t

/-- A turn onto the food: after a reset the snake steps up to (2, 1), food is
placed at (1, 1), and a left turn makes the snake head left along row 1. -/
def scenarioTurnOntoFood : Game := ((Game.new.reset.move.2).placeFood 1 1).left

/-- A second food: after the turn onto the food at (1, 1) the snake eats it,
growing to two segments with score 1, and food is placed at (0, 0). -/
def scenarioSecondFood : Game := (scenarioTurnOntoFood.move.2).placeFood 0 0

/-- The 25 cells of the board. -/
def boardCells : List (Int × Int) := List.product boardIndices boardIndices

/-- The segments of a 21-segment snake, head first: the head at (0, 0) and a
body winding through every cell of the columns 1 to 4. -/
def crowdedCoords : List (Int × Int) :=
  [(0, 0),
   (1, 0), (1, 1), (1, 2), (1, 3), (1, 4),
   (2, 4), (2, 3), (2, 2), (2, 1), (2, 0),
   (3, 0), (3, 1), (3, 2), (3, 3), (3, 4),
   (4, 4), (4, 3), (4, 2), (4, 1), (4, 0)]

/-- A crowded board: the 21-segment snake of `crowdedCoords` heading down,
no food, the grid lit accordingly. -/
def scenarioCrowded : Game :=
  { foodx := -1, foody := -1,
    snake := ⟨crowdedCoords.map (fun c => SnakeBone.new 0 4 c.1 0 4 c.2), Direction.DOWN⟩,
    image := ⟨fun a b => if a = 0 ∧ b = 0 then 150 else if 1 ≤ a then 15 else 0⟩,
    score := 20, buttonPressed := false }

/-- The food scenario with the score at the top of the `int` range. -/
def scenarioScoreLimit : Game := { scenarioFoodAhead with score := INT_MAX }

/-! ## Basic facts about the list model -/

@[simp] theorem NodeList.prepend_some {T : Type} (l : NodeList T) (n : T) :
    NodeList.prepend l (some n) = n :: l := by
  cases l <;> rfl

theorem NodeList.removeTail_eq_dropLast {T : Type} (l : NodeList T) :
    (NodeList.removeTail l).2 = l.dropLast := by
  unfold NodeList.removeTail
  rcases hl : l.getLast? with _ | m
  · have : l = [] := by simpa using hl
    subst this; rfl
  · rfl

theorem Snake.grow_bones (s : Snake) :
    s.grow.bones =
      SnakeBone.new 0 4 s.nextHead.1.toInt 0 4 s.nextHead.2.toInt :: s.bones := by
  simp [Snake.grow]

@[simp] theorem Snake.grow_d (s : Snake) : s.grow.d = s.d := rfl

theorem Snake.reduce_bones (s : Snake) : s.reduce.bones = s.bones.dropLast := by
  simp [Snake.reduce, NodeList.removeTail_eq_dropLast]

@[simp] theorem Snake.reduce_d (s : Snake) : s.reduce.d = s.d := rfl

/-! ## Basic facts about the grid -/

theorem MicroBitImage.get_set (img : MicroBitImage) (x y : Int) (v : Nat) (a b : Int)
    (h : onBoard (x, y)) :
    (img.setPixelValue x y v).getPixelValue a b =
      if a = x ∧ b = y then (v : Int) else img.getPixelValue a b := by
  obtain ⟨h1, h2, h3, h4⟩ := h
  simp only at h1 h2 h3 h4
  have hxy : ¬ (x ≥ 5 ∨ y ≥ 5 ∨ x < 0 ∨ y < 0) := by omega
  simp only [MicroBitImage.setPixelValue, MicroBitImage.getPixelValue, if_neg hxy]
  by_cases hab : a = x ∧ b = y
  · obtain ⟨rfl, rfl⟩ := hab
    simp [hxy]
  · simp only [if_neg hab]

theorem MicroBitImage.get_set_pair (img : MicroBitImage) (q : Int × Int) (v : Nat)
    (p : Int × Int) (h : onBoard q) :
    (img.setPixelValue q.1 q.2 v).getPixelValue p.1 p.2 =
      if p = q then (v : Int) else img.getPixelValue p.1 p.2 := by
  rw [MicroBitImage.get_set img q.1 q.2 v p.1 p.2 h]
  simp only [Prod.ext_iff]

theorem MicroBitImage.get_set_offBoard (img : MicroBitImage) (x y : Int) (v : Nat)
    (h : ¬ onBoard (x, y)) : img.setPixelValue x y v = img := by
  have hxy : x ≥ 5 ∨ y ≥ 5 ∨ x < 0 ∨ y < 0 := by
    unfold onBoard at h
    simp only at h
    omega
  simp only [MicroBitImage.setPixelValue, if_pos hxy]

theorem MicroBitImage.get_new5x5 (a b : Int) (h : onBoard (a, b)) :
    MicroBitImage.new5x5.getPixelValue a b = 0 := by
  obtain ⟨h1, h2, h3, h4⟩ := h
  simp only at h1 h2 h3 h4
  have hab : ¬ (a ≥ 5 ∨ b ≥ 5 ∨ a < 0 ∨ b < 0) := by omega
  simp [MicroBitImage.getPixelValue, MicroBitImage.new5x5, hab]

theorem MicroBitImage.get_offBoard (img : MicroBitImage) (a b : Int) (h : ¬ onBoard (a, b)) :
    img.getPixelValue a b = MICROBIT_INVALID_PARAMETER := by
  have hab : a ≥ 5 ∨ b ≥ 5 ∨ a < 0 ∨ b < 0 := by
    unfold onBoard at h
    simp only at h
    omega
  simp only [MicroBitImage.getPixelValue, if_pos hab]

theorem mem_boardIndices (x : Int) : x ∈ boardIndices ↔ 0 ≤ x ∧ x ≤ 4 := by
  unfold boardIndices
  constructor
  · intro h
    simp only [List.mem_cons, List.mem_singleton, List.not_mem_nil, or_false] at h
    omega
  · rintro ⟨h0, h4⟩
    interval_cases x <;> simp

/-! ## The axis value -/

theorem wrapInt_of_isInt (v : Int) (h : isInt v) : wrapInt v = v := by
  unfold isInt INT_MIN INT_MAX at h
  unfold wrapInt
  omega

/-- C1, as stated, fails where the step leaves the range of `int`:
`Dimension(0, INT_MAX, INT_MAX)` has `start <= cur <= end`, yet `operator++`
leaves `cur` at `INT_MIN`, not at `start` and not within `[start, end]`; and
on `Dimension(INT_MIN, 4, INT_MIN)` `operator--` leaves `cur` at `INT_MAX`,
not at `end`. -/
theorem Dimension.inc_dec_wrap_overflow :
    ((Dimension.mk 0 INT_MAX INT_MAX).intFields ∧
      (Dimension.mk 0 INT_MAX INT_MAX).start ≤ (Dimension.mk 0 INT_MAX INT_MAX).cur ∧
      (Dimension.mk 0 INT_MAX INT_MAX).cur ≤ (Dimension.mk 0 INT_MAX INT_MAX).end_ ∧
      (Dimension.mk 0 INT_MAX INT_MAX).inc.cur = INT_MIN ∧
      (Dimension.mk 0 INT_MAX INT_MAX).inc.cur ≠ (Dimension.mk 0 INT_MAX INT_MAX).start ∧
      ¬ (Dimension.mk 0 INT_MAX INT_MAX).start ≤ (Dimension.mk 0 INT_MAX INT_MAX).inc.cur) ∧
    ((Dimension.mk INT_MIN 4 INT_MIN).intFields ∧
      (Dimension.mk INT_MIN 4 INT_MIN).start ≤ (Dimension.mk INT_MIN 4 INT_MIN).cur ∧
      (Dimension.mk INT_MIN 4 INT_MIN).cur ≤ (Dimension.mk INT_MIN 4 INT_MIN).end_ ∧
      (Dimension.mk INT_MIN 4 INT_MIN).dec.cur = INT_MAX ∧
      (Dimension.mk INT_MIN 4 INT_MIN).dec.cur ≠ (Dimension.mk INT_MIN 4 INT_MIN).end_ ∧
      ¬ (Dimension.mk INT_MIN 4 INT_MIN).dec.cur ≤ (Dimension.mk INT_MIN 4 INT_MIN).end_) := by
  decide

/-- C1, amended: on a `Dimension` of `int` fields with `start <= cur <= end`,
when `cur < INT_MAX` `operator++` moves `cur` to `cur + 1` below `end` and to
`start` at `end`, and when `cur > INT_MIN` `operator--` moves it to `cur - 1`
above `start` and to `end` at `start`, the new `cur` lying within
`[start, end]`; both always leave `start` and `end` alone. -/
theorem Dimension.inc_dec_wrap (a : Dimension) (hint : a.intFields) (hlo : a.start ≤ a.cur)
    (hhi : a.cur ≤ a.end_) :
    (a.cur < INT_MAX →
      (a.inc.cur = if a.cur < a.end_ then a.cur + 1 else a.start) ∧
      (a.start ≤ a.inc.cur ∧ a.inc.cur ≤ a.end_)) ∧
    (INT_MIN < a.cur →
      (a.dec.cur = if a.cur > a.start then a.cur - 1 else a.end_) ∧
      (a.start ≤ a.dec.cur ∧ a.dec.cur ≤ a.end_)) ∧
    (a.inc.start = a.start ∧ a.inc.end_ = a.end_) ∧
    (a.dec.start = a.start ∧ a.dec.end_ = a.end_) := by
  obtain ⟨-, -, hc1, hc2⟩ := hint
  unfold INT_MIN at hc1
  unfold INT_MAX at hc2
  refine ⟨?_, ?_, ?_, ?_⟩
  · intro hmax
    unfold INT_MAX at hmax
    have e : wrapInt (a.cur + 1) = a.cur + 1 := by unfold wrapInt; omega
    unfold Dimension.inc
    simp only [e]
    refine ⟨?_, ?_, ?_⟩ <;> split_ifs <;> first | rfl | omega | (dsimp only; omega)
  · intro hmin
    unfold INT_MIN at hmin
    have e : wrapInt (a.cur - 1) = a.cur - 1 := by unfold wrapInt; omega
    unfold Dimension.dec
    simp only [e]
    refine ⟨?_, ?_, ?_⟩ <;> split_ifs <;> first | rfl | omega | (dsimp only; omega)
  · unfold Dimension.inc
    dsimp only
    split_ifs <;> exact ⟨rfl, rfl⟩
  · unfold Dimension.dec
    dsimp only
    split_ifs <;> exact ⟨rfl, rfl⟩

/-- The instance of amended C1 at the last column: `cur = end = 4` on
`[0, 4]`. -/
theorem Dimension.inc_dec_wrap_witness :
    (Dimension.mk 0 4 4).intFields ∧ ((0 : Int) ≤ 4 ∧ (4 : Int) ≤ 4) ∧
    (Dimension.mk 0 4 4).inc.cur = 0 ∧ (Dimension.mk 0 4 4).dec.cur = 3 := by
  have h := Dimension.inc_dec_wrap (Dimension.mk 0 4 4) (by decide) (by decide) (by decide)
  exact ⟨by decide, ⟨by decide, by decide⟩, (h.1 (by decide)).1, (h.2.1 (by decide)).1⟩

/-! ## The snake model -/

/-- C2: on a non-empty snake whose head bone sits at `(x, y)` with
`0 <= x, y <= 4`, `Snake::grow` prepends exactly one bone, at the head's cell
moved one step along the heading with wraparound on `[0, 4]`; the old bones
follow it in their old order and the heading is unchanged. -/
theorem Snake.grow_prepends_wrapped_neighbour (s : Snake) (b : SnakeBone)
    (rest : List SnakeBone) (hs : s.bones = b :: rest) (hb : b.boardAxes)
    (hx : 0 ≤ b.x.cur ∧ b.x.cur ≤ 4) (hy : 0 ≤ b.y.cur ∧ b.y.cur ≤ 4) :
    s.grow.bones =
      SnakeBone.new 0 4 (wrappedNeighbour s.d b.coord).1 0 4 (wrappedNeighbour s.d b.coord).2
        :: b :: rest ∧
    s.grow.d = s.d := by
  obtain ⟨h1, h2, h3, h4⟩ := hb
  refine ⟨?_, rfl⟩
  rw [Snake.grow_bones, hs]
  congr 1
  rcases b with ⟨⟨xs, xe, xc⟩, ⟨ys, ye, yc⟩⟩
  simp only at h1 h2 h3 h4 hx hy
  subst h1 h2 h3 h4
  have e1 : wrapInt (xc + 1) = xc + 1 := by unfold wrapInt; omega
  have e2 : wrapInt (xc - 1) = xc - 1 := by unfold wrapInt; omega
  have e3 : wrapInt (yc + 1) = yc + 1 := by unfold wrapInt; omega
  have e4 : wrapInt (yc - 1) = yc - 1 := by unfold wrapInt; omega
  cases hd : s.d <;>
    simp only [Snake.nextHead, Snake.getHeadX, Snake.getHeadY, NodeList.getHead, hs, hd,
      List.head?_cons, Snake._getNodeX, Snake._getNodeY, SnakeBone.getX, SnakeBone.getY,
      Dimension.inc, Dimension.dec, Dimension.toInt, wrappedNeighbour, SnakeBone.coord,
      e1, e2, e3, e4] <;>
    split_ifs <;> first | rfl | omega

/-- The instance of C2 at the top row: the head at (2, 0) heading up wraps to
(2, 4). -/
theorem Snake.grow_prepends_wrapped_neighbour_witness :
    (Snake.mk [SnakeBone.new 0 4 2 0 4 0, SnakeBone.new 0 4 2 0 4 1] Direction.UP).grow.bones =
      [SnakeBone.new 0 4 2 0 4 4, SnakeBone.new 0 4 2 0 4 0, SnakeBone.new 0 4 2 0 4 1] :=
  (Snake.grow_prepends_wrapped_neighbour
    (Snake.mk [SnakeBone.new 0 4 2 0 4 0, SnakeBone.new 0 4 2 0 4 1] Direction.UP)
    (SnakeBone.new 0 4 2 0 4 0) [SnakeBone.new 0 4 2 0 4 1] rfl (by decide)
    (by decide) (by decide)).1

/-- C5: `Snake::left` maps the heading Up to Left, Down to Left, Left to Down
and Right to Up; `Snake::right` maps Up to Right, Down to Right, Left to Up
and Right to Down. Hence neither turn yields the opposite heading (nor the
same one: the result is perpendicular), and the bones are unchanged. -/
theorem Snake.turn_table (bones : NodeList SnakeBone) (s : Snake) :
    (Snake.mk bones Direction.UP).left = Snake.mk bones Direction.LEFT ∧
    (Snake.mk bones Direction.DOWN).left = Snake.mk bones Direction.LEFT ∧
    (Snake.mk bones Direction.LEFT).left = Snake.mk bones Direction.DOWN ∧
    (Snake.mk bones Direction.RIGHT).left = Snake.mk bones Direction.UP ∧
    (Snake.mk bones Direction.UP).right = Snake.mk bones Direction.RIGHT ∧
    (Snake.mk bones Direction.DOWN).right = Snake.mk bones Direction.RIGHT ∧
    (Snake.mk bones Direction.LEFT).right = Snake.mk bones Direction.UP ∧
    (Snake.mk bones Direction.RIGHT).right = Snake.mk bones Direction.DOWN ∧
    (s.left.d ≠ s.d.opposite ∧ s.left.d ≠ s.d) ∧
    (s.right.d ≠ s.d.opposite ∧ s.right.d ≠ s.d) ∧
    s.left.bones = s.bones ∧ s.right.bones = s.bones := by
  refine ⟨rfl, rfl, rfl, rfl, rfl, rfl, rfl, rfl, ?_, ?_, ?_, ?_⟩ <;>
    rcases s with ⟨bs, d⟩ <;> cases d <;> simp [Snake.left, Snake.right, Direction.opposite]

/-- C7: on a non-empty snake, `Snake::grow` followed at once by
`Snake::reduce` leaves the number of segments as it was before `grow`, and the
head after `reduce` is the head right after `grow`. -/
theorem Snake.grow_reduce_length_head (s : Snake) (hne : s.bones ≠ []) :
    s.grow.reduce.bones.length = s.bones.length ∧
    s.grow.reduce.getHeadX = s.grow.getHeadX ∧
    s.grow.reduce.getHeadY = s.grow.getHeadY ∧
    (s.grow.reduce.getHeadX.toInt, s.grow.reduce.getHeadY.toInt) =
      (s.grow.getHeadX.toInt, s.grow.getHeadY.toInt) := by
  obtain ⟨h, t, hs⟩ := List.exists_cons_of_ne_nil hne
  have hb : s.grow.reduce.bones =
      SnakeBone.new 0 4 s.nextHead.1.toInt 0 4 s.nextHead.2.toInt :: (h :: t).dropLast := by
    rw [Snake.reduce_bones, Snake.grow_bones, hs, List.dropLast_cons₂]
  have hX : s.grow.reduce.getHeadX = s.grow.getHeadX := by
    simp [Snake.getHeadX, NodeList.getHead, hb, Snake.grow_bones]
  have hY : s.grow.reduce.getHeadY = s.grow.getHeadY := by
    simp [Snake.getHeadY, NodeList.getHead, hb, Snake.grow_bones]
  refine ⟨?_, hX, hY, by rw [hX, hY]⟩
  rw [hb, hs]
  simp

/-- The instance of C7 on the fresh snake: after `grow` and `reduce` it has
one segment again, at (2, 1). -/
theorem Snake.grow_reduce_length_head_witness :
    Snake.new.bones ≠ [] ∧ Snake.new.grow.reduce.bones.length = 1 ∧
    (Snake.new.grow.reduce.getHeadX.toInt, Snake.new.grow.reduce.getHeadY.toInt) =
      (Snake.new.grow.getHeadX.toInt, Snake.new.grow.getHeadY.toInt) :=
  ⟨by decide, (Snake.grow_reduce_length_head Snake.new (by decide)).1,
    (Snake.grow_reduce_length_head Snake.new (by decide)).2.2.2⟩

/-! ## The tick: score, length and food -/

theorem Game.move_snake (g : Game) :
    g.move.2.snake = if g.eats then g.snake.grow else g.snake.grow.reduce := by
  unfold Game.move Game.eats
  dsimp only
  split_ifs <;> rfl

theorem Game.move_score (g : Game) :
    g.move.2.score = if g.eats then wrapInt (g.score + 1) else g.score := by
  unfold Game.move Game.eats
  dsimp only
  split_ifs <;> rfl

theorem Game.move_food (g : Game) :
    (g.move.2.foodx, g.move.2.foody) = if g.eats then (-1, -1) else (g.foodx, g.foody) := by
  unfold Game.move Game.eats
  dsimp only
  split_ifs <;> rfl

theorem Snake.grow_head_coord (s : Snake) :
    (s.grow.getHeadX.toInt, s.grow.getHeadY.toInt) =
      (SnakeBone.new 0 4 s.nextHead.1.toInt 0 4 s.nextHead.2.toInt).coord := by
  simp [Snake.getHeadX, Snake.getHeadY, NodeList.getHead, Snake.grow_bones, Snake._getNodeX,
    Snake._getNodeY, SnakeBone.coord]

theorem Game.eats_iff (g : Game) :
    g.eats ↔ (SnakeBone.new 0 4 g.snake.nextHead.1.toInt 0 4 g.snake.nextHead.2.toInt).coord
      = (g.foodx, g.foody) := by
  rw [← Snake.grow_head_coord]
  simp [Game.eats]

/-- C3, as stated, fails at the top of the `int` range: on the food scenario
with the score at `INT_MAX` the snake is non-empty and the new head sits on
the food, yet after `Game::move` the score is `INT_MIN`, not the old score
plus 1. -/
theorem Game.move_score_overflow :
    scenarioScoreLimit.snake.bones ≠ [] ∧
    scenarioScoreLimit.nextCoord = (scenarioScoreLimit.foodx, scenarioScoreLimit.foody) ∧
    scenarioScoreLimit.score = INT_MAX ∧
    scenarioScoreLimit.move.2.score = INT_MIN ∧
    scenarioScoreLimit.move.2.score ≠ scenarioScoreLimit.score + 1 := by
  decide

/-- C3, amended: on a game whose snake is non-empty, `Game::move` acts on
score, snake and food as follows, game over or not. With `nb` the bone that
`grow` puts in front: if `nb` sits at `(foodx, foody)` the score, when it is
an `int` below `INT_MAX`, goes up by exactly 1, the bones become `nb` followed
by all old bones (one more than before) and the food becomes absent,
`(-1, -1)`; otherwise score and food are unchanged and the bones become `nb`
followed by the old bones without the old tail (as many as before). -/
theorem Game.move_score_length_food (g : Game) (hne : g.snake.bones ≠ []) :
    ∃ nb : SnakeBone, g.snake.grow.bones = nb :: g.snake.bones ∧
      nb.coord = (g.snake.grow.getHeadX.toInt, g.snake.grow.getHeadY.toInt) ∧
      (nb.coord = (g.foodx, g.foody) →
        (INT_MIN ≤ g.score ∧ g.score < INT_MAX → g.move.2.score = g.score + 1) ∧
        g.move.2.snake.bones = nb :: g.snake.bones ∧
        g.move.2.snake.bones.length = g.snake.bones.length + 1 ∧
        g.move.2.foodx = -1 ∧ g.move.2.foody = -1) ∧
      (nb.coord ≠ (g.foodx, g.foody) →
        g.move.2.score = g.score ∧
        g.move.2.snake.bones = nb :: g.snake.bones.dropLast ∧
        g.move.2.snake.bones.length = g.snake.bones.length ∧
        g.move.2.foodx = g.foodx ∧ g.move.2.foody = g.foody) := by
  obtain ⟨h, t, hs⟩ := List.exists_cons_of_ne_nil hne
  refine ⟨_, Snake.grow_bones g.snake, (Snake.grow_head_coord g.snake).symm, ?_, ?_⟩
  · intro he
    have he2 : g.eats := (Game.eats_iff g).2 he
    have hf := Game.move_food g
    rw [if_pos he2] at hf
    have hsn := Game.move_snake g
    rw [if_pos he2] at hsn
    have hsc := Game.move_score g
    rw [if_pos he2] at hsc
    refine ⟨?_, ?_, ?_, (Prod.mk.inj hf).1, (Prod.mk.inj hf).2⟩
    · rintro ⟨hlo, hhi⟩
      unfold INT_MIN at hlo
      unfold INT_MAX at hhi
      rw [hsc]
      unfold wrapInt
      omega
    · rw [hsn, Snake.grow_bones]
    · rw [hsn, Snake.grow_bones]; simp
  · intro he
    have he2 : ¬ g.eats := fun h => he ((Game.eats_iff g).1 h)
    have hf := Game.move_food g
    rw [if_neg he2] at hf
    have hsn := Game.move_snake g
    rw [if_neg he2] at hsn
    have hsc := Game.move_score g
    rw [if_neg he2] at hsc
    have hb : g.move.2.snake.bones =
        SnakeBone.new 0 4 g.snake.nextHead.1.toInt 0 4 g.snake.nextHead.2.toInt
          :: g.snake.bones.dropLast := by
      rw [hsn, Snake.reduce_bones, Snake.grow_bones, hs, List.dropLast_cons₂]
    refine ⟨hsc, hb, ?_, (Prod.mk.inj hf).1, (Prod.mk.inj hf).2⟩
    rw [hb, hs]; simp

/-- The scenario of amended C3: after the tick the score is 1, the segments are
(2, 1) then (2, 2), and the food is absent. -/
theorem Game.move_score_length_food_witness :
    scenarioFoodAhead.snake.bones ≠ [] ∧
    scenarioFoodAhead.move.2.score = 1 ∧
    scenarioFoodAhead.move.2.snake.coords = [(2, 1), (2, 2)] ∧
    scenarioFoodAhead.move.2.foodx = -1 ∧ scenarioFoodAhead.move.2.foody = -1 := by
  obtain ⟨nb, hg, hc, heat, _⟩ :=
    Game.move_score_length_food scenarioFoodAhead (by decide)
  have hnb : nb = SnakeBone.new 0 4 2 0 4 1 := by
    have : scenarioFoodAhead.snake.grow.bones =
        [SnakeBone.new 0 4 2 0 4 1, SnakeBone.new 0 4 2 0 4 2] := by decide
    rw [this] at hg
    exact ((List.cons.inj hg).1).symm
  subst hnb
  obtain ⟨h1, h2, _, h4, h5⟩ := heat (by decide)
  refine ⟨by decide, ?_, ?_, h4, h5⟩
  · rw [h1 (by decide)]; rfl
  · rw [Snake.coords, h2]; decide

/-! ## Turn debouncing -/

theorem Game.request_of_pressed (g : Game) (hp : g.buttonPressed = true) (r : Game.TurnRequest) :
    g.request r = g := by
  cases r <;> simp [Game.request, Game.left, Game.right, hp]

theorem Game.request_pressed (g : Game) (r : Game.TurnRequest) :
    (g.request r).buttonPressed = true := by
  cases r <;> cases hp : g.buttonPressed <;> simp [Game.request, Game.left, Game.right, hp]

theorem Game.requests_of_pressed (g : Game) (hp : g.buttonPressed = true)
    (rs : List Game.TurnRequest) : g.requests rs = g := by
  induction rs with
  | nil => rfl
  | cons r rs ih =>
    show Game.requests (g.request r) rs = g
    rw [Game.request_of_pressed g hp r]
    exact ih

theorem Game.request_heading (g : Game) (hp : g.buttonPressed = false) (r : Game.TurnRequest) :
    (g.request r).snake.d ≠ g.snake.d ∧ (g.request r).snake.d ≠ g.snake.d.opposite := by
  rcases g with ⟨fx, fy, ⟨bs, d⟩, img, sc, bp⟩
  simp only at hp
  subst hp
  cases r <;> cases d <;>
    simp [Game.request, Game.left, Game.right, Snake.left, Snake.right, Direction.opposite]

theorem Direction.ne_opposite (d : Direction) : d ≠ d.opposite := by
  cases d <;> simp [Direction.opposite]

/-- C6: from a state whose latch `buttonPressed` is false, in a sequence of
`Game::left` / `Game::right` requests with no move in between only the first
request changes the heading (and sets the latch); every later request leaves
the whole state unchanged, so the sequence acts as its first request alone.
Hence the heading after any such sequence is never the opposite of the heading
before it. A move that returns true sets the latch back to false. -/
theorem Game.turn_debounce (g : Game) (hp : g.buttonPressed = false) :
    (∀ r : Game.TurnRequest,
      (g.request r).snake.d ≠ g.snake.d ∧ (g.request r).buttonPressed = true) ∧
    (∀ (r : Game.TurnRequest) (rs : List Game.TurnRequest) (r2 : Game.TurnRequest),
      (g.requests (r :: rs)).request r2 = g.requests (r :: rs)) ∧
    (∀ (r : Game.TurnRequest) (rs : List Game.TurnRequest),
      g.requests (r :: rs) = g.request r) ∧
    (∀ rs : List Game.TurnRequest, (g.requests rs).snake.d ≠ g.snake.d.opposite) ∧
    (∀ g2 : Game, g2.move.1 = true → g2.move.2.buttonPressed = false) := by
  have hfirst : ∀ (r : Game.TurnRequest) (rs : List Game.TurnRequest),
      g.requests (r :: rs) = g.request r := fun r rs =>
    Game.requests_of_pressed (g.request r) (Game.request_pressed g r) rs
  refine ⟨fun r => ⟨(Game.request_heading g hp r).1, Game.request_pressed g r⟩, ?_, hfirst, ?_, ?_⟩
  · intro r rs r2
    rw [hfirst]
    exact Game.request_of_pressed _ (Game.request_pressed g r) r2
  · intro rs
    cases rs with
    | nil => exact Direction.ne_opposite g.snake.d
    | cons r rs =>
      rw [hfirst]
      exact (Game.request_heading g hp r).2
  · intro g2
    unfold Game.move
    dsimp only
    split_ifs <;> simp

/-- The instance of C6 on the fresh game: left, left, right acts as the first
left alone and the heading ends as Left, not Down. -/
theorem Game.turn_debounce_witness :
    Game.new.buttonPressed = false ∧
    Game.new.requests [Game.TurnRequest.left, Game.TurnRequest.left, Game.TurnRequest.right] =
      Game.new.request Game.TurnRequest.left ∧
    (Game.new.requests
      [Game.TurnRequest.left, Game.TurnRequest.left, Game.TurnRequest.right]).snake.d ≠
        Game.new.snake.d.opposite :=
  ⟨rfl, (Game.turn_debounce Game.new rfl).2.2.1 _ _, (Game.turn_debounce Game.new rfl).2.2.2.1 _⟩

/-! ## Reset -/

/-- C9: from every game state, `Game::reset` yields a snake of exactly one
segment at (2, 2) heading up, score 0, food absent (`foodx = foody = -1`) and
a 5x5 grid that is 150 at (2, 2) and 0 at every other cell. -/
theorem Game.reset_state (g : Game) :
    g.reset.snake.bones = [SnakeBone.new 0 4 2 0 4 2] ∧
    g.reset.snake.coords = [(2, 2)] ∧
    g.reset.snake.d = Direction.UP ∧
    g.reset.score = 0 ∧
    g.reset.foodx = -1 ∧ g.reset.foody = -1 ∧
    ∀ x y : Fin 5, g.reset.image.getPixelValue x.val y.val =
      if x.val = 2 ∧ y.val = 2 then 150 else 0 := by
  refine ⟨rfl, rfl, rfl, rfl, rfl, rfl, ?_⟩
  intro x y
  have hx := x.isLt
  have hy := y.isLt
  have himg : g.reset.image = MicroBitImage.new5x5.setPixelValue 2 2 150 := rfl
  rw [himg, MicroBitImage.get_set _ _ _ _ _ _ (by decide),
    MicroBitImage.get_new5x5 _ _ ⟨by omega, by omega, by omega, by omega⟩]
  by_cases h : x.val = 2 ∧ y.val = 2
  · rw [if_pos h, if_pos ⟨by omega, by omega⟩]; rfl
  · rw [if_neg h, if_neg (by omega)]

/-! ## The tick on a consistent state -/

theorem wrappedNeighbour_onBoard (d : Direction) (p : Int × Int) (h : onBoard p) :
    onBoard (wrappedNeighbour d p) ∧ wrappedNeighbour d p ≠ p := by
  obtain ⟨x, y⟩ := p
  obtain ⟨h1, h2, h3, h4⟩ := h
  simp only at h1 h2 h3 h4
  cases d <;> simp only [wrappedNeighbour] <;> split_ifs <;>
    refine ⟨⟨?_, ?_, ?_, ?_⟩, ?_⟩ <;> simp only [ne_eq, Prod.mk.injEq] <;> omega

theorem Snake.nextHead_coord (s : Snake) (b : SnakeBone) (rest : List SnakeBone)
    (hs : s.bones = b :: rest) (hb : b.boardAxes) (hon : onBoard b.coord) :
    (s.nextHead.1.toInt, s.nextHead.2.toInt) = wrappedNeighbour s.d b.coord := by
  obtain ⟨h1, h2, h3, h4⟩ := hb
  obtain ⟨hx0, hx4, hy0, hy4⟩ := hon
  rcases b with ⟨⟨xs, xe, xc⟩, ⟨ys, ye, yc⟩⟩
  simp only [SnakeBone.coord, SnakeBone.getX, SnakeBone.getY, Dimension.toInt] at h1 h2 h3 h4 hx0 hx4 hy0 hy4
  subst h1 h2 h3 h4
  have e1 : wrapInt (xc + 1) = xc + 1 := by unfold wrapInt; omega
  have e2 : wrapInt (xc - 1) = xc - 1 := by unfold wrapInt; omega
  have e3 : wrapInt (yc + 1) = yc + 1 := by unfold wrapInt; omega
  have e4 : wrapInt (yc - 1) = yc - 1 := by unfold wrapInt; omega
  cases hd : s.d <;>
    simp only [Snake.nextHead, Snake.getHeadX, Snake.getHeadY, NodeList.getHead, hs, hd,
      List.head?_cons, Snake._getNodeX, Snake._getNodeY, SnakeBone.getX, SnakeBone.getY,
      Dimension.inc, Dimension.dec, Dimension.toInt, wrappedNeighbour, SnakeBone.coord,
      e1, e2, e3, e4] <;>
    split_ifs <;> first | rfl | omega

theorem Game.move_flag (g : Game) :
    g.move.1 = false ↔ g.imageAtBite.getPixelValue g.nextCoord.1 g.nextCoord.2 = 15 := by
  unfold Game.move Game.imageAtBite Game.nextCoord Game.eats
  dsimp only
  split_ifs <;> simp_all

theorem Game.move_image (g : Game) :
    g.move.2.image =
      if g.imageAtBite.getPixelValue g.nextCoord.1 g.nextCoord.2 = 15 then g.imageAtBite
      else g.imageAtBite.setPixelValue g.nextCoord.1 g.nextCoord.2 SNAKE_HEAD_PIXEL_BRIGHTNESS := by
  unfold Game.move Game.imageAtBite Game.nextCoord Game.eats
  dsimp only
  split_ifs <;> rfl

theorem Snake.head_coord (s : Snake) (b : SnakeBone) (rest : List SnakeBone)
    (hs : s.bones = b :: rest) : (s.getHeadX.toInt, s.getHeadY.toInt) = b.coord := by
  simp [Snake.getHeadX, Snake.getHeadY, NodeList.getHead, hs, Snake._getNodeX, Snake._getNodeY,
    SnakeBone.coord]

theorem Snake.grow_tail_coord (s : Snake) (init : List SnakeBone) (tb : SnakeBone)
    (hs : s.bones = init ++ [tb]) :
    (s.grow.getTailX.toInt, s.grow.getTailY.toInt) = tb.coord := by
  have : s.grow.bones.getLast? = some tb := by
    rw [Snake.grow_bones, hs, ← List.cons_append, List.getLast?_append]
    simp
  simp [Snake.getTailX, Snake.getTailY, NodeList.getTail, this, Snake._getNodeX,
    Snake._getNodeY, SnakeBone.coord]


theorem Game.imageAtBite_get (g : Game) (h t p : Int × Int)
    (hh : (g.snake.getHeadX.toInt, g.snake.getHeadY.toInt) = h)
    (ht : (g.snake.grow.getTailX.toInt, g.snake.grow.getTailY.toInt) = t)
    (hbon : onBoard h) (hton : onBoard t) :
    g.imageAtBite.getPixelValue p.1 p.2 =
      if g.eats then (if p = h then 15 else g.image.getPixelValue p.1 p.2)
      else (if p = t then 0 else if p = h then 15 else g.image.getPixelValue p.1 p.2) := by
  subst hh ht
  have hpe : ∀ a b : Int, (p.1 = a ∧ p.2 = b) ↔ p = (a, b) := by
    intro a b; rw [Prod.ext_iff]
  unfold Game.imageAtBite
  dsimp only
  by_cases he : g.eats
  · rw [if_pos he, if_pos he, MicroBitImage.get_set _ _ _ _ _ _ hbon]
    simp only [hpe, SNAKE_BONE_PIXEL_BRIGHTNESS]
    rfl
  · have hend : g.snake.grow.getTailX.toInt ≠ -1 ∧ g.snake.grow.getTailY.toInt ≠ -1 := by
      have h1 := hton.1
      have h2 := hton.2.2.1
      simp only at h1 h2
      constructor <;> omega
    rw [if_neg he, if_neg he, if_pos hend, MicroBitImage.get_set _ _ _ _ _ _ hton,
      MicroBitImage.get_set _ _ _ _ _ _ hbon]
    simp only [hpe, SNAKE_BONE_PIXEL_BRIGHTNESS]
    rfl

/-- What a tick does to a consistent state, up to the snake-bite check: with
`h` the head, `t` the tail and `init` the segments before the tail. -/
theorem Game.consistent_step (g : Game) (hc : g.consistent) :
    ∃ (h t : Int × Int) (init : List (Int × Int)),
      g.snake.coords.head? = some h ∧ g.snake.coords = init ++ [t] ∧
      g.nextCoord = wrappedNeighbour g.snake.d h ∧
      g.move.2.snake.coords = (if g.eats then g.nextCoord :: g.snake.coords
        else g.nextCoord :: init) ∧
      g.move.2.snake.boardAxes ∧
      onBoard h ∧ onBoard t ∧ onBoard g.nextCoord ∧ g.nextCoord ≠ h ∧ t ∉ init ∧ init.Nodup ∧
      (g.eats ↔ g.nextCoord = (g.foodx, g.foody)) ∧
      (∀ p, onBoard p → g.imageAtBite.getPixelValue p.1 p.2 =
        if g.eats then (if p = h then 15 else (g.expectedPixel p : Int))
        else (if p = t then 0 else if p = h then 15 else (g.expectedPixel p : Int))) := by
  obtain ⟨hne, hax, hnd, hon, hfood, hpix⟩ := hc
  obtain ⟨b, rest, hs⟩ := List.exists_cons_of_ne_nil hne
  have hlast : g.snake.bones = g.snake.bones.dropLast ++ [g.snake.bones.getLast hne] :=
    (List.dropLast_append_getLast hne).symm
  have hcs : g.snake.coords =
      (g.snake.bones.dropLast.map SnakeBone.coord) ++ [(g.snake.bones.getLast hne).coord] := by
    conv_lhs => rw [Snake.coords, hlast]
    simp
  have hhead : g.snake.coords.head? = some b.coord := by simp [Snake.coords, hs]
  have hbon : onBoard b.coord := hon _ (by simp [Snake.coords, hs])
  have hton : onBoard (g.snake.bones.getLast hne).coord :=
    hon _ (by rw [hcs]; simp)
  have hnc : g.nextCoord = wrappedNeighbour g.snake.d b.coord := by
    rw [Game.nextCoord, Snake.grow_head_coord, ← Snake.nextHead_coord g.snake b rest hs
      (hax b (by simp [hs])) hbon]
    rfl
  have hnb := wrappedNeighbour_onBoard g.snake.d b.coord hbon
  rw [← hnc] at hnb
  have hnd2 := hnd
  rw [hcs, List.nodup_append] at hnd2
  have htn : (g.snake.bones.getLast hne).coord ∉ g.snake.bones.dropLast.map SnakeBone.coord := by
    intro hmem
    exact hnd2.2.2 hmem (by simp)
  have heats : g.eats ↔ g.nextCoord = (g.foodx, g.foody) := by
    simp [Game.eats, Game.nextCoord]
  have hgrowc : g.snake.grow.coords = g.nextCoord :: g.snake.coords := by
    rw [Snake.coords, Snake.grow_bones, List.map_cons, Game.nextCoord, Snake.grow_head_coord]
    rfl
  refine ⟨b.coord, (g.snake.bones.getLast hne).coord, g.snake.bones.dropLast.map SnakeBone.coord,
    hhead, hcs, hnc, ?_, ?_, hbon, hton, hnb.1, hnb.2, htn, hnd2.1, heats, ?_⟩
  · rw [Game.move_snake]
    split_ifs with he
    · exact hgrowc
    · rw [Snake.coords, Snake.reduce_bones, Snake.grow_bones, hs, List.dropLast_cons₂,
        List.map_cons, ← hs, Game.nextCoord, Snake.grow_head_coord]
  · rw [Game.move_snake]
    have hg : g.snake.grow.boardAxes := by
      intro x hx
      rw [Snake.grow_bones] at hx
      rcases List.mem_cons.1 hx with rfl | hx
      · exact ⟨rfl, rfl, rfl, rfl⟩
      · exact hax x hx
    split_ifs with he
    · exact hg
    · intro x hx
      rw [Snake.reduce_bones] at hx
      exact hg x (List.mem_of_mem_dropLast hx)
  · intro p hp
    have hexp : g.image.getPixelValue p.1 p.2 = (g.expectedPixel p : Int) :=
      hpix p.1 ((mem_boardIndices _).2 ⟨hp.1, hp.2.1⟩) p.2 ((mem_boardIndices _).2 ⟨hp.2.2.1, hp.2.2.2⟩)
    rw [Game.imageAtBite_get g b.coord (g.snake.bones.getLast hne).coord p
      (Snake.head_coord g.snake b rest hs) (Snake.grow_tail_coord g.snake _ _ hlast) hbon hton,
      hexp]

theorem Game.expectedPixel_of_ne_head (g : Game) (h p : Int × Int)
    (hh : g.snake.coords.head? = some h) (hp : p ≠ h) :
    g.expectedPixel p =
      if p ∈ g.snake.coords then 15 else if p = (g.foodx, g.foody) then 255 else 0 := by
  unfold Game.expectedPixel
  rw [hh, if_neg (fun e => hp (Option.some.inj e).symm)]
  rfl

theorem Game.consistent_eats_not_mem (g : Game) (hc : g.consistent) (he : g.eats) :
    g.nextCoord ∉ g.snake.coords := by
  obtain ⟨h, t, init, -, -, -, -, -, -, -, hnon, -, -, -, heats, -⟩ := Game.consistent_step g hc
  have hnf := heats.1 he
  rcases hc.2.2.2.2.1 with ⟨hx, hy⟩ | ⟨-, hnot⟩
  · exfalso
    rw [hnf] at hnon
    have := hnon.1
    simp only at this
    omega
  · rw [hnf]; exact hnot

theorem Game.consistent_bite (g : Game) (hc : g.consistent) :
    g.imageAtBite.getPixelValue g.nextCoord.1 g.nextCoord.2 = 15 ↔
      (if g.eats then g.nextCoord ∈ g.snake.coords
       else g.nextCoord ∈ g.snake.coords.dropLast) := by
  have hnm := Game.consistent_eats_not_mem g hc
  obtain ⟨h, t, init, hh, hcs, -, -, -, -, -, hnon, hnh, htn, -, heats, hpix⟩ :=
    Game.consistent_step g hc
  rw [hpix _ hnon, Game.expectedPixel_of_ne_head g h _ hh hnh]
  by_cases he : g.eats
  · have h1 := hnm he
    rw [if_pos he, if_pos he, if_neg hnh, if_neg h1, if_pos (heats.1 he)]
    simp [h1]
  · rw [if_neg he, if_neg he, hcs, List.dropLast_concat]
    by_cases hnt : g.nextCoord = t
    · rw [if_pos hnt]
      rw [hnt]
      simp [htn]
    · rw [if_neg hnt, if_neg hnh]
      have hmem : g.nextCoord ∈ init ++ [t] ↔ g.nextCoord ∈ init := by
        simp [hnt]
      by_cases hin : g.nextCoord ∈ init
      · rw [if_pos (hmem.2 hin)]
        simp [hin]
      · rw [if_neg (fun hm => hin (hmem.1 hm))]
        split_ifs <;> simp [hin]

/-- C4: on a consistent state `Game::move` returns false (game over) exactly
when the new head coordinate is the coordinate of a segment of the snake
before the tick that is still part of the body after the tail handling: any
segment when the food is eaten, any segment except the tail otherwise. -/
theorem Game.move_game_over_iff (g : Game) (hc : g.consistent) :
    g.move.1 = false ↔
      (if g.eats then g.nextCoord ∈ g.snake.coords
       else g.nextCoord ∈ g.snake.coords.dropLast) := by
  rw [Game.move_flag]
  exact Game.consistent_bite g hc

/-- The instance of C4 on the biting scenario: the head at (1, 2) moves right
onto the segment at (2, 2), which is not the tail, and the game is over. -/
theorem Game.move_game_over_iff_witness :
    scenarioBite.consistent ∧ scenarioBite.move.1 = false :=
  ⟨by decide, (Game.move_game_over_iff scenarioBite (by decide)).2 (by decide)⟩

/-- C8: a successful tick preserves consistency: if `Game::move` returns true
on a consistent state, the resulting state is consistent; in particular every
segment cell has a non-zero grid value and no two segments share a
coordinate. -/
theorem Game.move_preserves_consistent (g : Game) (hc : g.consistent)
    (hok : g.move.1 = true) :
    g.move.2.consistent ∧
    (∀ p ∈ g.move.2.snake.coords, g.move.2.image.getPixelValue p.1 p.2 ≠ 0) ∧
    g.move.2.snake.coords.Nodup := by
  have hnm := Game.consistent_eats_not_mem g hc
  have hbite := Game.consistent_bite g hc
  obtain ⟨h, t, init, hh, hcs, -, hcs2, hax2, hhon, hton, hnon, hnh, htn, hind, heats, hpix⟩ :=
    Game.consistent_step g hc
  obtain ⟨hne, hax, hnd, hon, hfood, -⟩ := hc
  have hflag : ¬ g.imageAtBite.getPixelValue g.nextCoord.1 g.nextCoord.2 = 15 := by
    intro hb
    have := (Game.move_flag g).2 hb
    rw [hok] at this
    exact Bool.noConfusion this
  have himg : g.move.2.image =
      g.imageAtBite.setPixelValue g.nextCoord.1 g.nextCoord.2 SNAKE_HEAD_PIXEL_BRIGHTNESS := by
    rw [Game.move_image, if_neg hflag]
  have hmemcs : ∀ p, p ∈ g.snake.coords ↔ p ∈ init ∨ p = t := by
    intro p; rw [hcs]; simp
  have hhmem : h ∈ g.snake.coords := by
    have := List.mem_of_mem_head? hh
    exact this
  have hfd := Game.move_food g
  -- the new segments
  have hnd2 : g.move.2.snake.coords.Nodup := by
    rw [hcs2]
    by_cases he : g.eats
    · rw [if_pos he]
      exact List.nodup_cons.2 ⟨hnm he, hnd⟩
    · rw [if_neg he]
      rw [if_neg he, hcs, List.dropLast_concat] at hbite
      exact List.nodup_cons.2 ⟨fun hin => hflag (hbite.2 hin), hind⟩
  have hon2 : ∀ p ∈ g.move.2.snake.coords, onBoard p := by
    intro p hp
    rw [hcs2] at hp
    by_cases he : g.eats
    · rw [if_pos he] at hp
      rcases List.mem_cons.1 hp with rfl | hp
      · exact hnon
      · exact hon p hp
    · rw [if_neg he] at hp
      rcases List.mem_cons.1 hp with rfl | hp
      · exact hnon
      · exact hon p ((hmemcs p).2 (Or.inl hp))
  have hfood2 : g.move.2.foodAbsent ∨
      (onBoard (g.move.2.foodx, g.move.2.foody) ∧
        (g.move.2.foodx, g.move.2.foody) ∉ g.move.2.snake.coords) := by
    unfold Game.foodAbsent
    rw [hfd, hcs2]
    by_cases he : g.eats
    · left
      have := congrArg Prod.fst hfd
      have := congrArg Prod.snd hfd
      simp_all
    · rw [if_neg he, if_neg he]
      rcases hfood with habs | ⟨hfon, hfn⟩
      · left
        have h1 := congrArg Prod.fst hfd
        have h2 := congrArg Prod.snd hfd
        rw [if_neg he] at h1 h2
        exact ⟨h1.trans habs.1, h2.trans habs.2⟩
      · right
        refine ⟨hfon, ?_⟩
        intro hmem
        rcases List.mem_cons.1 hmem with e | hin
        · exact he (heats.2 e.symm)
        · exact hfn ((hmemcs _).2 (Or.inl hin))
  have hpix2 : ∀ p, onBoard p →
      g.move.2.image.getPixelValue p.1 p.2 = (g.move.2.expectedPixel p : Int) := by
    intro p hp
    have hpf : p ≠ (-1, -1) := by
      intro e
      have := hp.1
      rw [e] at this
      simp only at this
      omega
    have hE2 : g.move.2.expectedPixel p =
        if p = g.nextCoord then 150
        else if p ∈ g.move.2.snake.coords then 15
        else if p = (g.move.2.foodx, g.move.2.foody) then 255 else 0 := by
      unfold Game.expectedPixel
      have : g.move.2.snake.coords.head? = some g.nextCoord := by
        rw [hcs2]; split_ifs <;> rfl
      rw [this]
      by_cases hpn : p = g.nextCoord
      · rw [if_pos hpn, if_pos (by rw [hpn])]; rfl
      · rw [if_neg hpn, if_neg (fun e => hpn (Option.some.inj e).symm)]; rfl
    rw [himg, MicroBitImage.get_set_pair _ g.nextCoord _ _ hnon, hpix p hp, hE2, hfd, hcs2]
    by_cases hpn : p = g.nextCoord
    · rw [if_pos hpn, if_pos hpn]; rfl
    · rw [if_neg hpn, if_neg hpn]
      by_cases he : g.eats
      · have hfn : p ≠ (g.foodx, g.foody) := by
          rw [← heats.1 he]; exact hpn
        rw [if_pos he, if_pos he, if_pos he, if_neg hpf]
        by_cases hph : p = h
        · have : p ∈ g.nextCoord :: g.snake.coords := by
            rw [hph]; exact List.mem_cons_of_mem _ hhmem
          rw [if_pos hph, if_pos this]; rfl
        · rw [if_neg hph, Game.expectedPixel_of_ne_head g h p hh hph, if_neg hfn]
          by_cases hin : p ∈ g.snake.coords
          · rw [if_pos hin, if_pos (List.mem_cons_of_mem _ hin)]
          · have : p ∉ g.nextCoord :: g.snake.coords := by
              intro hm
              rcases List.mem_cons.1 hm with e | hm
              · exact hpn e
              · exact hin hm
            rw [if_neg hin, if_neg this]
      · rw [if_neg he, if_neg he, if_neg he]
        have hmem2 : p ∈ g.nextCoord :: init ↔ p ∈ init := by
          simp [hpn]
        by_cases hpt : p = t
        · have h1 : p ∉ g.nextCoord :: init := by
            rw [hmem2, hpt]; exact htn
          have h2 : p ≠ (g.foodx, g.foody) := by
            rcases hfood with habs | ⟨-, hfn⟩
            · intro e
              apply hpf
              rw [e, habs.1, habs.2]
            · intro e
              apply hfn
              rw [← e, hpt]
              exact (hmemcs t).2 (Or.inr rfl)
          rw [if_pos hpt, if_neg h1, if_neg h2]; rfl
        · rw [if_neg hpt]
          by_cases hph : p = h
          · have : p ∈ g.nextCoord :: init := by
              rw [hmem2]
              rcases (hmemcs h).1 hhmem with hin | e
              · rw [hph]; exact hin
              · exact absurd (hph.trans e) hpt
            rw [if_pos hph, if_pos this]; rfl
          · rw [if_neg hph, Game.expectedPixel_of_ne_head g h p hh hph]
            by_cases hin : p ∈ init
            · rw [if_pos ((hmemcs p).2 (Or.inl hin)), if_pos (hmem2.2 hin)]
            · have h1 : p ∉ g.snake.coords := by
                intro hm
                rcases (hmemcs p).1 hm with hm | e
                · exact hin hm
                · exact hpt e
              rw [if_neg h1, if_neg (fun hm => hin (hmem2.1 hm))]
  have hbones2 : g.move.2.snake.bones ≠ [] := by
    intro e
    have : g.move.2.snake.coords = [] := by rw [Snake.coords, e]; rfl
    rw [hcs2] at this
    split_ifs at this
  refine ⟨⟨hbones2, hax2, hnd2, hon2, hfood2, ?_⟩, ?_, hnd2⟩
  · intro x hx y hy
    exact hpix2 (x, y) ⟨((mem_boardIndices x).1 hx).1, ((mem_boardIndices x).1 hx).2,
      ((mem_boardIndices y).1 hy).1, ((mem_boardIndices y).1 hy).2⟩
  · intro p hp
    rw [hpix2 p (hon2 p hp)]
    unfold Game.expectedPixel
    split_ifs <;> decide


/-- The instance of C8 on the food scenario: the tick eats the food at (2, 1),
succeeds, and leaves a consistent state. -/
theorem Game.move_preserves_consistent_witness :
    scenarioFoodAhead.consistent ∧ scenarioFoodAhead.move.1 = true ∧
    scenarioFoodAhead.move.2.consistent :=
  ⟨by decide, by decide,
    (Game.move_preserves_consistent scenarioFoodAhead (by decide) (by decide)).1⟩

/-- C10: a length-1 snake never dies on a tick: with the single segment at a
board cell `(x, y)`, the grid 150 there and 0 elsewhere and no food,
`Game::move` returns true, the snake is the single segment at the wrapped
neighbour of `(x, y)` along the heading, and the grid is 0 at `(x, y)` and 150
at that neighbour. -/
theorem Game.move_single_segment (g : Game) (x y : Int) (hx : 0 ≤ x ∧ x ≤ 4)
    (hy : 0 ≤ y ∧ y ≤ 4) (hs : g.snake.bones = [SnakeBone.new 0 4 x 0 4 y])
    (hgrid : ∀ a ∈ boardIndices, ∀ b ∈ boardIndices,
      g.image.getPixelValue a b = if a = x ∧ b = y then 150 else 0)
    (hfood : g.foodAbsent) :
    g.move.1 = true ∧
    g.move.2.snake.bones =
      [SnakeBone.new 0 4 (wrappedNeighbour g.snake.d (x, y)).1 0 4
        (wrappedNeighbour g.snake.d (x, y)).2] ∧
    g.move.2.image.getPixelValue x y = 0 ∧
    g.move.2.image.getPixelValue (wrappedNeighbour g.snake.d (x, y)).1
      (wrappedNeighbour g.snake.d (x, y)).2 = 150 := by
  have hcoords : g.snake.coords = [(x, y)] := by rw [Snake.coords, hs]; rfl
  have hxy : onBoard (x, y) := ⟨hx.1, hx.2, hy.1, hy.2⟩
  have hc : g.consistent := by
    refine ⟨by rw [hs]; simp, ?_, by rw [hcoords]; simp, ?_, Or.inl hfood, ?_⟩
    · intro b hb
      rw [hs] at hb
      rw [List.mem_singleton.1 hb]
      exact ⟨rfl, rfl, rfl, rfl⟩
    · intro p hp
      rw [hcoords] at hp
      rw [List.mem_singleton.1 hp]
      exact hxy
    · intro a ha b hb
      rw [hgrid a ha b hb]
      unfold Game.expectedPixel
      rw [hcoords]
      by_cases hab : a = x ∧ b = y
      · obtain ⟨rfl, rfl⟩ := hab
        simp [SNAKE_HEAD_PIXEL_BRIGHTNESS]
      · have h1 : ¬ (x = a ∧ y = b) := fun e => hab ⟨e.1.symm, e.2.symm⟩
        have h2 : ¬ (a = g.foodx ∧ b = g.foody) := by
          have := ((mem_boardIndices a).1 ha).1
          have := hfood.1
          omega
        simp [hab, h1, h2]
  have hnc : g.nextCoord = wrappedNeighbour g.snake.d (x, y) := by
    have := Snake.nextHead_coord g.snake _ [] hs ⟨rfl, rfl, rfl, rfl⟩ hxy
    rw [Game.nextCoord, Snake.grow_head_coord]
    exact this
  have hnb := wrappedNeighbour_onBoard g.snake.d (x, y) hxy
  rw [← hnc] at hnb ⊢
  have hne : ¬ g.eats := by
    intro he
    have h1 := hnb.1.1
    have h2 := he.1
    have h3 := hfood.1
    unfold Game.nextCoord at h1
    simp only at h1
    omega
  have hflag : ¬ g.imageAtBite.getPixelValue g.nextCoord.1 g.nextCoord.2 = 15 := by
    rw [Game.consistent_bite g hc, if_neg hne, hcoords]
    simp
  have himg : g.move.2.image =
      g.imageAtBite.setPixelValue g.nextCoord.1 g.nextCoord.2 SNAKE_HEAD_PIXEL_BRIGHTNESS := by
    rw [Game.move_image, if_neg hflag]
  have htail : (g.snake.grow.getTailX.toInt, g.snake.grow.getTailY.toInt) = (x, y) :=
    Snake.grow_tail_coord g.snake [] _ hs
  refine ⟨?_, ?_, ?_, ?_⟩
  · cases hm : g.move.1
    · exact absurd ((Game.move_flag g).1 hm) hflag
    · rfl
  · rw [Game.move_snake, if_neg hne, Snake.reduce_bones, Snake.grow_bones, hs]
    have := Snake.grow_head_coord g.snake
    rw [← Game.nextCoord] at this
    rw [this]
    rfl
  · rw [himg, MicroBitImage.get_set_pair _ g.nextCoord _ (x, y) hnb.1,
      if_neg (fun e => hnb.2 e.symm),
      Game.imageAtBite_get g (x, y) (x, y) (x, y) (Snake.head_coord g.snake _ [] hs) htail hxy hxy,
      if_neg hne, if_pos rfl]
  · rw [himg, MicroBitImage.get_set_pair _ g.nextCoord _ g.nextCoord hnb.1, if_pos rfl]
    rfl

/-- The scenario of C10: the reset game, a single segment at (2, 2) heading
up with no food, moves to (2, 1). -/
theorem Game.move_single_segment_witness :
    (((0 : Int) ≤ 2 ∧ (2 : Int) ≤ 4) ∧
      Game.new.reset.snake.bones = [SnakeBone.new 0 4 2 0 4 2] ∧
      (∀ a ∈ boardIndices, ∀ b ∈ boardIndices,
        Game.new.reset.image.getPixelValue a b = if a = 2 ∧ b = 2 then 150 else 0) ∧
      Game.new.reset.foodAbsent) ∧
    Game.new.reset.move.1 = true ∧
    Game.new.reset.move.2.snake.bones = [SnakeBone.new 0 4 2 0 4 1] ∧
    Game.new.reset.move.2.image.getPixelValue 2 2 = 0 ∧
    Game.new.reset.move.2.image.getPixelValue 2 1 = 150 :=
  ⟨⟨by decide, by decide, by decide, by decide⟩,
    Game.move_single_segment Game.new.reset 2 2 (by decide) (by decide) (by decide) (by decide)
      (by decide)⟩

/-! ## Food acceptance -/

/-- C11: on a game whose snake is non-empty, with head bone `b`, and for
every cell `(x, y)`, on the board in particular, `Game::isGoodFood(x, y)` is
true exactly when the grid value at `(x, y)` is 0 and `x` differs from the
head's `x` under heading Up or Down, `y` differs from the head's `y` under
heading Left or Right. The method assigns to no member: its embedding takes
the state and returns the flag alone. -/
theorem Game.isGoodFood_iff (g : Game) (b : SnakeBone) (rest : List SnakeBone)
    (hs : g.snake.bones = b :: rest) (x y : Int) :
    g.isGoodFood x y = true ↔
      (g.image.getPixelValue x y = 0 ∧
        ((g.snake.d = Direction.UP ∨ g.snake.d = Direction.DOWN) → x ≠ b.x.cur) ∧
        ((g.snake.d = Direction.LEFT ∨ g.snake.d = Direction.RIGHT) → y ≠ b.y.cur)) := by
  have hX : g.snake.getHeadX.toInt = b.x.cur := by
    simp [Snake.getHeadX, NodeList.getHead, hs, Snake._getNodeX, SnakeBone.getX, Dimension.toInt]
  have hY : g.snake.getHeadY.toInt = b.y.cur := by
    simp [Snake.getHeadY, NodeList.getHead, hs, Snake._getNodeY, SnakeBone.getY, Dimension.toInt]
  unfold Game.isGoodFood
  simp only [Snake.getDirection, hX, hY]
  by_cases h0 : g.image.getPixelValue x y = 0
  · cases hd : g.snake.d <;> simp [h0]
  · simp [h0]

/-- The instance of C11 on the reset game: (1, 2) is accepted, (2, 1), in the
column of the head, is not. -/
theorem Game.isGoodFood_iff_witness :
    Game.new.reset.snake.bones = [SnakeBone.new 0 4 2 0 4 2] ∧ onBoard (1, 2) ∧
    Game.new.reset.isGoodFood 1 2 = true ∧ Game.new.reset.isGoodFood 2 1 = false := by
  have h := Game.isGoodFood_iff Game.new.reset (SnakeBone.new 0 4 2 0 4 2) [] rfl 1 2
  exact ⟨rfl, by decide, h.2 (by decide), by decide⟩

/-! ## More on the axis value -/

/-- C14, as stated, fails where `cur - k` leaves the range of `int`: on
`Dimension(0, 4, 0)` `operator-(INT_MIN)` returns `end = 4` although
`cur - k = 2147483648` is not below `start`; and on
`Dimension(INT_MIN, 4, INT_MIN)`, with `start <= cur <= end`, `operator-(1)`
returns `INT_MAX`, outside `[start, end]`. -/
theorem Dimension.minus_overflow :
    ((Dimension.mk 0 4 0).cur - INT_MIN ≥ (Dimension.mk 0 4 0).start ∧
      (Dimension.mk 0 4 0).minus INT_MIN = 4 ∧
      (Dimension.mk 0 4 0).minus INT_MIN ≠ (Dimension.mk 0 4 0).cur - INT_MIN) ∧
    ((Dimension.mk INT_MIN 4 INT_MIN).start ≤ (Dimension.mk INT_MIN 4 INT_MIN).cur ∧
      (Dimension.mk INT_MIN 4 INT_MIN).cur ≤ (Dimension.mk INT_MIN 4 INT_MIN).end_ ∧
      (0 : Int) ≤ 1 ∧
      (Dimension.mk INT_MIN 4 INT_MIN).minus 1 = INT_MAX ∧
      ¬ (Dimension.mk INT_MIN 4 INT_MIN).minus 1 ≤ (Dimension.mk INT_MIN 4 INT_MIN).end_) := by
  decide

/-- C14, amended: for every `Dimension` and every `k` such that `cur - k` is
within the range of `int`, `operator-(k)` returns `cur - k` when
`cur - k >= start` and `end` when `cur - k < start`; it returns a plain
integer and leaves the `Dimension` as it is. When moreover
`start <= cur <= end` and `k >= 0` the result lies in `[start, end]`. -/
theorem Dimension.minus_spec (a : Dimension) (k : Int) (hr : isInt (a.cur - k)) :
    (a.minus k = if a.cur - k ≥ a.start then a.cur - k else a.end_) ∧
    (a.start ≤ a.cur ∧ a.cur ≤ a.end_ ∧ 0 ≤ k →
      a.start ≤ a.minus k ∧ a.minus k ≤ a.end_) := by
  unfold Dimension.minus
  rw [wrapInt_of_isInt _ hr]
  dsimp only
  constructor
  · split_ifs <;> first | rfl | omega
  · rintro ⟨h1, h2, h3⟩
    split_ifs <;> constructor <;> omega

/-- The instance of amended C14 on `Dimension(0, 4, 1)`: `operator-(3)` falls
below `start` and returns `end`, inside `[0, 4]`. -/
theorem Dimension.minus_spec_witness :
    isInt ((Dimension.mk 0 4 1).cur - 3) ∧ (Dimension.mk 0 4 1).minus 3 = 4 ∧
    ((Dimension.mk 0 4 1).start ≤ (Dimension.mk 0 4 1).minus 3 ∧
      (Dimension.mk 0 4 1).minus 3 ≤ (Dimension.mk 0 4 1).end_) :=
  ⟨by decide, (Dimension.minus_spec (Dimension.mk 0 4 1) 3 (by decide)).1,
    (Dimension.minus_spec (Dimension.mk 0 4 1) 3 (by decide)).2 (by decide)⟩

/-- C15: `Snake::reduce` on a non-empty body removes exactly the last segment
and keeps the others in order and the heading; on an empty body it changes
nothing. -/
theorem Snake.reduce_spec (init : List SnakeBone) (t : SnakeBone) (d : Direction) :
    (Snake.mk (init ++ [t]) d).reduce = Snake.mk init d ∧
    (Snake.mk [] d).reduce = Snake.mk [] d := by
  constructor
  · have h := Snake.reduce_bones (Snake.mk (init ++ [t]) d)
    rw [List.dropLast_concat] at h
    have hd : (Snake.mk (init ++ [t]) d).reduce.d = d := rfl
    rcases hr : (Snake.mk (init ++ [t]) d).reduce with ⟨bs, d2⟩
    rw [hr] at h hd
    simp only at h hd
    rw [h, hd]
  · rfl

/-- C16: on a non-empty body `getHeadX` / `getHeadY` return the axis values
of the first segment and `getTailX` / `getTailY` those of the last; on an
empty body all four return the sentinel `Dimension(-1, -1, -1)`, of value
-1. The four readers are total. -/
theorem Snake.head_tail_readers (b t : SnakeBone) (rest init : List SnakeBone)
    (d : Direction) :
    ((Snake.mk (b :: rest) d).getHeadX = b.x ∧ (Snake.mk (b :: rest) d).getHeadY = b.y) ∧
    ((Snake.mk (init ++ [t]) d).getTailX = t.x ∧ (Snake.mk (init ++ [t]) d).getTailY = t.y) ∧
    ((Snake.mk [] d).getHeadX.toInt = -1 ∧ (Snake.mk [] d).getHeadY.toInt = -1 ∧
      (Snake.mk [] d).getTailX.toInt = -1 ∧ (Snake.mk [] d).getTailY.toInt = -1) ∧
    ((Snake.mk [] d).getHeadX = Dimension.new3 (-1) (-1) (-1) ∧
      (Snake.mk [] d).getTailX = Dimension.new3 (-1) (-1) (-1)) := by
  refine ⟨⟨rfl, rfl⟩, ⟨?_, ?_⟩, ⟨rfl, rfl, rfl, rfl⟩, ⟨rfl, rfl⟩⟩
  · simp [Snake.getTailX, NodeList.getTail, Snake._getNodeX, SnakeBone.getX]
  · simp [Snake.getTailY, NodeList.getTail, Snake._getNodeY, SnakeBone.getY]

/-- C20: for every heading, `Snake::grow` on a snake with no segments yields
a snake with exactly one segment, at the sentinel (-1, -1), which is not a
board cell. -/
theorem Snake.grow_empty (d : Direction) :
    (Snake.mk [] d).grow = Snake.mk [SnakeBone.new 0 4 (-1) 0 4 (-1)] d ∧
    (Snake.mk [] d).grow.bones.length = 1 ∧
    (Snake.mk [] d).grow.coords = [(-1, -1)] ∧
    ¬ onBoard (-1, -1) := by
  cases d <;> exact ⟨by decide, by decide, by decide, by decide⟩

/-! ## Coordinates stay on the board -/

/-- The invariant of the reachable snakes: a non-empty body of bones with
axes over `[0, 4]`, every segment on the board. -/
theorem Snake.Reachable.invariant (s : Snake) (hr : s.Reachable) :
    s.bones ≠ [] ∧ s.boardAxes ∧ ∀ p ∈ s.coords, onBoard p := by
  induction hr with
  | fresh => exact ⟨by decide, by decide, by decide⟩
  | reset s => exact ⟨by simp [Snake.reset], by
      intro b hb
      have : b = SnakeBone.new 0 4 2 0 4 2 := by simpa [Snake.reset, NodeList.cleanup] using hb
      rw [this]; exact ⟨rfl, rfl, rfl, rfl⟩, by
      intro p hp
      have : p = (2, 2) := by
        simpa [Snake.coords, Snake.reset, NodeList.cleanup, SnakeBone.coord, SnakeBone.new,
          Dimension.new3, SnakeBone.getX, SnakeBone.getY, Dimension.toInt] using hp
      rw [this]; decide⟩
  | left s _ ih =>
    have hb : s.left.bones = s.bones := by
      rcases s with ⟨bs, d⟩; cases d <;> rfl
    have hc : s.left.coords = s.coords := by rw [Snake.coords, hb]; rfl
    exact ⟨by rw [hb]; exact ih.1, by intro b h; rw [hb] at h; exact ih.2.1 b h,
      by rw [hc]; exact ih.2.2⟩
  | right s _ ih =>
    have hb : s.right.bones = s.bones := by
      rcases s with ⟨bs, d⟩; cases d <;> rfl
    have hc : s.right.coords = s.coords := by rw [Snake.coords, hb]; rfl
    exact ⟨by rw [hb]; exact ih.1, by intro b h; rw [hb] at h; exact ih.2.1 b h,
      by rw [hc]; exact ih.2.2⟩
  | grow s _ ih =>
    obtain ⟨hne, hax, hon⟩ := ih
    obtain ⟨b, rest, hs⟩ := List.exists_cons_of_ne_nil hne
    have hbon : onBoard b.coord := hon _ (by simp [Snake.coords, hs])
    have hn := Snake.nextHead_coord s b rest hs (hax b (by simp [hs])) hbon
    have hnb := (wrappedNeighbour_onBoard s.d b.coord hbon).1
    rw [← hn] at hnb
    refine ⟨by rw [Snake.grow_bones]; simp, ?_, ?_⟩
    · intro x hx
      rw [Snake.grow_bones] at hx
      rcases List.mem_cons.1 hx with rfl | hx
      · exact ⟨rfl, rfl, rfl, rfl⟩
      · exact hax x hx
    · intro p hp
      rw [Snake.coords, Snake.grow_bones, List.map_cons] at hp
      rcases List.mem_cons.1 hp with rfl | hp
      · exact hnb
      · exact hon p hp
  | reduce s _ hlen ih =>
    obtain ⟨hne, hax, hon⟩ := ih
    refine ⟨?_, ?_, ?_⟩
    · rw [Snake.reduce_bones]
      intro h
      have hl := congrArg List.length h
      rw [List.length_dropLast] at hl
      have : s.bones.length ≠ 0 := fun h0 => hne (List.length_eq_zero.1 h0)
      simp only [List.length_nil] at hl
      omega
    · intro x hx
      rw [Snake.reduce_bones] at hx
      exact hax x (List.mem_of_mem_dropLast hx)
    · intro p hp
      rw [Snake.coords, Snake.reduce_bones] at hp
      obtain ⟨b, hb, rfl⟩ := List.mem_map.1 hp
      exact hon _ (List.mem_map.2 ⟨b, List.mem_of_mem_dropLast hb, rfl⟩)

/-- C13: in every snake state reachable from a fresh or reset snake by
`left`, `right`, `grow` and `reduce`, with `reduce` never applied to a
length-1 snake, every segment has `x` and `y` in `[0, 4]`. Hence the three
cells `Game::move` touches, the old head, the tail after `grow` and the new
head, are on the board. -/
theorem Snake.reachable_on_board (s : Snake) (hr : s.Reachable) :
    (∀ b ∈ s.bones, (0 ≤ b.x.cur ∧ b.x.cur ≤ 4) ∧ (0 ≤ b.y.cur ∧ b.y.cur ≤ 4)) ∧
    onBoard (s.getHeadX.toInt, s.getHeadY.toInt) ∧
    onBoard (s.grow.getTailX.toInt, s.grow.getTailY.toInt) ∧
    onBoard (s.grow.getHeadX.toInt, s.grow.getHeadY.toInt) := by
  obtain ⟨hne, -, hon⟩ := Snake.Reachable.invariant s hr
  obtain ⟨-, -, hon2⟩ := Snake.Reachable.invariant s.grow (Snake.Reachable.grow s hr)
  obtain ⟨b, rest, hs⟩ := List.exists_cons_of_ne_nil hne
  refine ⟨?_, ?_, ?_, ?_⟩
  · intro x hx
    have := hon x.coord (List.mem_map.2 ⟨x, hx, rfl⟩)
    exact ⟨⟨this.1, this.2.1⟩, ⟨this.2.2.1, this.2.2.2⟩⟩
  · rw [Snake.head_coord s b rest hs]
    exact hon _ (by simp [Snake.coords, hs])
  · rw [Snake.grow_tail_coord s _ _ (List.dropLast_append_getLast hne).symm]
    exact hon _ (List.mem_map.2 ⟨_, List.getLast_mem hne, rfl⟩)
  · rw [Snake.grow_head_coord]
    exact hon2 _ (by rw [Snake.coords, Snake.grow_bones]; simp)

/-- The instance of C13 after four steps up from the centre and a turn: the
head has wrapped around the top edge and every segment is on the board. -/
theorem Snake.reachable_on_board_witness :
    Snake.new.grow.grow.grow.grow.left.Reachable ∧
    Snake.new.grow.grow.grow.grow.left.coords = [(2, 3), (2, 4), (2, 0), (2, 1), (2, 2)] ∧
    onBoard (Snake.new.grow.grow.grow.grow.left.getHeadX.toInt,
      Snake.new.grow.grow.grow.grow.left.getHeadY.toInt) :=
  have hr : Snake.new.grow.grow.grow.grow.left.Reachable :=
    Snake.Reachable.left _ (Snake.Reachable.grow _ (Snake.Reachable.grow _
      (Snake.Reachable.grow _ (Snake.Reachable.grow _ Snake.Reachable.fresh))))
  ⟨hr, by decide, (Snake.reachable_on_board _ hr).2.1⟩

/-! ## Game over -/

theorem Snake.grow_tail_eq (s : Snake) (hne : s.bones ≠ []) :
    s.grow.getTailX = s.getTailX ∧ s.grow.getTailY = s.getTailY := by
  obtain ⟨b, rest, hs⟩ := List.exists_cons_of_ne_nil hne
  have : s.grow.bones.getLast? = s.bones.getLast? := by
    rw [Snake.grow_bones, hs, List.getLast?_cons_cons]
  simp only [Snake.getTailX, Snake.getTailY, NodeList.getTail, this, and_self]

theorem Game.imageAtBite_eq_dimmedRetracted (g : Game) (hne : g.snake.bones ≠ []) :
    g.imageAtBite = g.dimmedRetracted := by
  obtain ⟨hx, hy⟩ := Snake.grow_tail_eq g.snake hne
  unfold Game.imageAtBite Game.dimmedRetracted
  dsimp only
  rw [hx, hy]
  by_cases he : g.eats
  · rw [if_pos he, if_pos he]
  · rw [if_neg he, if_neg he]
    by_cases hend : g.snake.getTailX.toInt ≠ -1 ∧ g.snake.getTailY.toInt ≠ -1
    · rw [if_pos hend]
    · have hoff : ¬ onBoard (g.snake.getTailX.toInt, g.snake.getTailY.toInt) := by
        intro hon
        apply hend
        have h1 := hon.1
        have h2 := hon.2.2.1
        simp only at h1 h2
        constructor <;> omega
      rw [if_neg hend]
      exact (MicroBitImage.get_set_offBoard _ _ _ 0 hoff).symm

theorem Game.move_buttonPressed (g : Game) :
    g.move.2.buttonPressed =
      if g.imageAtBite.getPixelValue g.nextCoord.1 g.nextCoord.2 = 15 then g.buttonPressed
      else false := by
  unfold Game.move Game.imageAtBite Game.nextCoord Game.eats
  dsimp only
  split_ifs <;> rfl

/-- C17: game over writes nothing further. On a game whose snake is
non-empty, if `Game::move` returns false then the grid cell at the new head
coordinate still holds body brightness 15, the grid is the one obtained by
dimming the old head and, when no food is eaten, clearing the old tail cell,
and the latch `buttonPressed` keeps the value it had before the tick. -/
theorem Game.move_game_over_frame (g : Game) (hne : g.snake.bones ≠ [])
    (hover : g.move.1 = false) :
    g.move.2.image.getPixelValue g.nextCoord.1 g.nextCoord.2 = 15 ∧
    g.move.2.image = g.dimmedRetracted ∧
    g.move.2.buttonPressed = g.buttonPressed := by
  have hbite := (Game.move_flag g).1 hover
  have himg : g.move.2.image = g.imageAtBite := by
    rw [Game.move_image, if_pos hbite]
  refine ⟨by rw [himg]; exact hbite, ?_, ?_⟩
  · rw [himg, Game.imageAtBite_eq_dimmedRetracted g hne]
  · rw [Game.move_buttonPressed, if_pos hbite]

/-- The instance of C17 on the biting scenario: the tick is a game over, the
cell (2, 2) under the new head still shows 15 and the latch is unchanged. -/
theorem Game.move_game_over_frame_witness :
    scenarioBite.snake.bones ≠ [] ∧ scenarioBite.move.1 = false ∧
    scenarioBite.nextCoord = (2, 2) ∧
    scenarioBite.move.2.image.getPixelValue 2 2 = 15 ∧
    scenarioBite.move.2.image = scenarioBite.dimmedRetracted ∧
    scenarioBite.move.2.buttonPressed = scenarioBite.buttonPressed :=
  ⟨by decide, by decide, by decide,
    (Game.move_game_over_frame scenarioBite (by decide) (by decide)).1,
    (Game.move_game_over_frame scenarioBite (by decide) (by decide)).2⟩

/-! ## Food alignment -/

theorem Game.isGoodFood_offAxis (g : Game) (x y : Int) (h : g.isGoodFood x y = true) :
    g.image.getPixelValue x y = 0 ∧ g.offAxis (x, y) := by
  unfold Game.isGoodFood at h
  unfold Game.offAxis
  simp only [Snake.getDirection] at h
  by_cases h0 : g.image.getPixelValue x y = 0
  · refine ⟨h0, ?_⟩
    cases hd : g.snake.d <;> simp_all
  · simp [h0] at h

theorem Game.offAxis_isGoodFood (g : Game) (x y : Int)
    (h0 : g.image.getPixelValue x y = 0) (h : g.offAxis (x, y)) : g.isGoodFood x y = true := by
  unfold Game.isGoodFood
  unfold Game.offAxis at h
  simp only [Snake.getDirection]
  cases hd : g.snake.d <;> simp_all

/-- The head keeps its `x` on a vertical step and its `y` on a horizontal
step, whatever the body. -/
theorem Game.move_head_axis (g : Game) :
    ((g.snake.d = Direction.UP ∨ g.snake.d = Direction.DOWN) →
      g.move.2.snake.getHeadX.toInt = g.snake.getHeadX.toInt) ∧
    ((g.snake.d = Direction.LEFT ∨ g.snake.d = Direction.RIGHT) →
      g.move.2.snake.getHeadY.toInt = g.snake.getHeadY.toInt) ∧
    g.move.2.snake.d = g.snake.d := by
  have hgx : (g.snake.d = Direction.UP ∨ g.snake.d = Direction.DOWN) →
      g.snake.grow.getHeadX.toInt = g.snake.getHeadX.toInt := by
    intro hd
    have := congrArg Prod.fst (Snake.grow_head_coord g.snake)
    dsimp only at this
    rw [this]
    rcases hd with hd | hd <;> simp [Snake.nextHead, hd, SnakeBone.coord, SnakeBone.new,
      Dimension.new3, SnakeBone.getX, Dimension.toInt]
  have hgy : (g.snake.d = Direction.LEFT ∨ g.snake.d = Direction.RIGHT) →
      g.snake.grow.getHeadY.toInt = g.snake.getHeadY.toInt := by
    intro hd
    have := congrArg Prod.snd (Snake.grow_head_coord g.snake)
    dsimp only at this
    rw [this]
    rcases hd with hd | hd <;> simp [Snake.nextHead, hd, SnakeBone.coord, SnakeBone.new,
      Dimension.new3, SnakeBone.getY, Dimension.toInt]
  have hred : g.snake.grow.reduce.getHeadX.toInt = (if g.snake.bones = [] then -1
        else g.snake.grow.getHeadX.toInt) ∧
      g.snake.grow.reduce.getHeadY.toInt = (if g.snake.bones = [] then -1
        else g.snake.grow.getHeadY.toInt) := by
    rcases hb : g.snake.bones with _ | ⟨b, rest⟩
    · simp [Snake.getHeadX, Snake.getHeadY, NodeList.getHead, Snake.reduce_bones,
        Snake.grow_bones, hb, Snake._getNodeX, Snake._getNodeY, Dimension.new3, Dimension.toInt]
    · simp [Snake.getHeadX, Snake.getHeadY, NodeList.getHead, Snake.reduce_bones,
        Snake.grow_bones, hb]
  have hempty : g.snake.bones = [] →
      g.snake.getHeadX.toInt = -1 ∧ g.snake.getHeadY.toInt = -1 := by
    intro hb
    simp [Snake.getHeadX, Snake.getHeadY, NodeList.getHead, hb, Snake._getNodeX,
      Snake._getNodeY, Dimension.new3, Dimension.toInt]
  rw [Game.move_snake]
  by_cases he : g.eats
  · rw [if_pos he]
    exact ⟨hgx, hgy, rfl⟩
  · rw [if_neg he]
    refine ⟨?_, ?_, rfl⟩
    · intro hd
      rw [hred.1]
      split_ifs with hb
      · exact (hempty hb).1.symm
      · exact hgx hd
    · intro hd
      rw [hred.2]
      split_ifs with hb
      · exact (hempty hb).2.symm
      · exact hgy hd

/-- A tick keeps the food off the head's axis. -/
theorem Game.move_foodOffAxis (g : Game) (h : g.foodOffAxis) : g.move.2.foodOffAxis := by
  obtain ⟨hx, hy, hd⟩ := Game.move_head_axis g
  have hf := Game.move_food g
  intro hpres
  by_cases he : g.eats
  · rw [if_pos he] at hf
    exact absurd ⟨congrArg Prod.fst hf, congrArg Prod.snd hf⟩ hpres
  · rw [if_neg he] at hf
    have hfx : g.move.2.foodx = g.foodx := congrArg Prod.fst hf
    have hfy : g.move.2.foody = g.foody := congrArg Prod.snd hf
    have hpres0 : ¬ g.foodAbsent := by
      intro ha
      apply hpres
      exact ⟨hfx.trans ha.1, hfy.trans ha.2⟩
    obtain ⟨h1, h2⟩ := h hpres0
    unfold Game.offAxis
    rw [hd, hfx, hfy]
    exact ⟨fun hv => by rw [hx hv]; exact h1 hv, fun hh => by rw [hy hh]; exact h2 hh⟩


theorem Game.request_food (g : Game) (r : Game.TurnRequest) :
    (g.request r).foodx = g.foodx ∧ (g.request r).foody = g.foody := by
  cases r <;> cases hp : g.buttonPressed <;> simp [Game.request, Game.left, Game.right, hp]

/-- C12, as stated, fails: the state reached from `Game::reset` by a
successful move, the placement of food at (1, 1), accepted by `isGoodFood`,
and an accepted left turn has the snake heading left from (2, 1) with the
food at (1, 1), in the row of the head. -/
theorem Game.food_alignment_broken_by_turn :
    scenarioTurnOntoFood.Reachable ∧
    ¬ scenarioTurnOntoFood.foodAbsent ∧
    scenarioTurnOntoFood.snake.d = Direction.LEFT ∧
    (scenarioTurnOntoFood.foodx, scenarioTurnOntoFood.foody) = (1, 1) ∧
    (scenarioTurnOntoFood.snake.getHeadX.toInt, scenarioTurnOntoFood.snake.getHeadY.toInt)
      = (2, 1) ∧
    ¬ scenarioTurnOntoFood.foodOffAxis := by
  refine ⟨?_, by decide, by decide, by decide, by decide, by decide⟩
  have h1 : Game.ReachableTracked Game.new.reset.move.2 false :=
    Game.ReachableTracked.move _ _ (Game.ReachableTracked.reset Game.new) (by decide)
  have h2 : Game.ReachableTracked (Game.new.reset.move.2.placeFood 1 1) false :=
    Game.ReachableTracked.food _ _ 1 1 h1 (by decide) (by decide) (by decide) (by decide)
  exact ⟨true, Game.ReachableTracked.turn _ _ Game.TurnRequest.left h2 (by decide)⟩

/-- Along every history, the food is off the head's axis as long as the flag
of the history is down. -/
theorem Game.ReachableTracked.foodOffAxis (g : Game) (t : Bool)
    (hr : Game.ReachableTracked g t) : t = false → g.foodOffAxis := by
  induction hr with
  | reset g =>
    intro _ hpres
    exact absurd ⟨rfl, rfl⟩ hpres
  | move g t _ _ ih =>
    intro ht
    exact Game.move_foodOffAxis g (ih ht)
  | turn g t r _ _ _ =>
    intro ht
    exact Bool.noConfusion ht
  | food g t x y _ _ _ _ hgood _ =>
    intro _ _
    exact (Game.isGoodFood_offAxis g x y hgood).2

/-- C12, amended: in every game state reachable from `Game::reset` by
successful moves, accepted turns and food placements that pass `isGoodFood`,
a present food is not aligned with the head along the heading, provided no
turn has been accepted since that food was placed: under heading Up or Down
its `x` differs from the head's `x`, under heading Left or Right its `y`
differs from the head's `y`. -/
theorem Game.food_alignment_until_turn (g : Game) (hr : Game.ReachableTracked g false) :
    g.Reachable ∧ g.foodOffAxis :=
  ⟨⟨false, hr⟩, Game.ReachableTracked.foodOffAxis g false hr rfl⟩

/-- The instance of amended C12 after an earlier turn: the snake turned onto
the food at (1, 1) and ate it, food was then placed at (0, 0); the snake has
two segments and score 1, heads left along row 1, and the food is off that
row. -/
theorem Game.food_alignment_until_turn_witness :
    Game.ReachableTracked scenarioSecondFood false ∧
    scenarioSecondFood.snake.coords = [(1, 1), (2, 1)] ∧ scenarioSecondFood.score = 1 ∧
    (scenarioSecondFood.foodx, scenarioSecondFood.foody) = (0, 0) ∧
    scenarioSecondFood.foodOffAxis := by
  have h1 : Game.ReachableTracked Game.new.reset.move.2 false :=
    Game.ReachableTracked.move _ _ (Game.ReachableTracked.reset Game.new) (by decide)
  have h2 : Game.ReachableTracked (Game.new.reset.move.2.placeFood 1 1) false :=
    Game.ReachableTracked.food _ _ 1 1 h1 (by decide) (by decide) (by decide) (by decide)
  have h3 : Game.ReachableTracked scenarioTurnOntoFood true :=
    Game.ReachableTracked.turn _ _ Game.TurnRequest.left h2 (by decide)
  have h4 : Game.ReachableTracked scenarioTurnOntoFood.move.2 true :=
    Game.ReachableTracked.move _ _ h3 (by decide)
  have h5 : Game.ReachableTracked scenarioSecondFood false :=
    Game.ReachableTracked.food _ _ 0 0 h4 (by decide) (by decide) (by decide) (by decide)
  exact ⟨h5, by decide, by decide, by decide,
    (Game.food_alignment_until_turn scenarioSecondFood h5).2⟩

/-! ## A cell for the food -/

theorem mem_boardCells (c : Int × Int) : c ∈ boardCells ↔ onBoard c := by
  obtain ⟨x, y⟩ := c
  unfold boardCells onBoard
  rw [List.pair_mem_product, mem_boardIndices, mem_boardIndices]
  constructor
  · rintro ⟨⟨h1, h2⟩, h3, h4⟩
    exact ⟨h1, h2, h3, h4⟩
  · rintro ⟨h1, h2, h3, h4⟩
    exact ⟨⟨h1, h2⟩, h3, h4⟩

theorem boardCells_nodup : boardCells.Nodup := by decide

theorem boardCells_off_line :
    ∀ k ∈ boardIndices,
      (boardCells.filter (fun c => decide (c.1 ≠ k))).length = 20 ∧
      (boardCells.filter (fun c => decide (c.2 ≠ k))).length = 20 := by
  decide

/-- Twenty distinct board cells off the head's axis cannot all be occupied
by a snake of at most twenty segments, one of which is the head. -/
theorem Game.good_food_among (g : Game) (hc : g.consistent) (hf : g.foodAbsent)
    (hlen : g.snake.bones.length ≤ 20) (S : List (Int × Int)) (hSn : S.Nodup)
    (hSl : S.length = 20) (hSb : ∀ c ∈ S, onBoard c ∧ g.offAxis c) :
    ∃ c ∈ S, g.isGoodFood c.1 c.2 = true := by
  by_contra hno
  push_neg at hno
  obtain ⟨hne, -, -, -, -, hpix⟩ := hc
  obtain ⟨b, rest, hs⟩ := List.exists_cons_of_ne_nil hne
  have hcs : g.snake.coords = b.coord :: rest.map SnakeBone.coord := by
    rw [Snake.coords, hs]; rfl
  have hhead := Snake.head_coord g.snake b rest hs
  have hsub : S ⊆ rest.map SnakeBone.coord := by
    intro c hcS
    obtain ⟨hon, hoff⟩ := hSb c hcS
    have hpx : g.image.getPixelValue c.1 c.2 = (g.expectedPixel c : Int) :=
      hpix c.1 ((mem_boardIndices _).2 ⟨hon.1, hon.2.1⟩) c.2
        ((mem_boardIndices _).2 ⟨hon.2.2.1, hon.2.2.2⟩)
    have hnz : g.image.getPixelValue c.1 c.2 ≠ 0 := fun h0 =>
      hno c hcS (Game.offAxis_isGoodFood g c.1 c.2 h0 hoff)
    have hcb : c ≠ b.coord := by
      intro e
      have h1 := congrArg Prod.fst hhead
      have h2 := congrArg Prod.snd hhead
      dsimp only at h1 h2
      obtain ⟨hv, hh⟩ := hoff
      rw [e] at hv hh
      cases hd : g.snake.d
      · exact hv (Or.inl hd) h1.symm
      · exact hv (Or.inr hd) h1.symm
      · exact hh (Or.inl hd) h2.symm
      · exact hh (Or.inr hd) h2.symm
    have hcf : c ≠ (g.foodx, g.foody) := by
      intro e
      have := hon.1
      rw [e, hf.1] at this
      simp only at this
      omega
    by_contra hnot
    apply hnz
    rw [hpx, Game.expectedPixel_of_ne_head g b.coord c (by rw [hcs]; rfl) hcb, hcs,
      if_neg (by
        intro hm
        rcases List.mem_cons.1 hm with e | hm
        · exact hcb e
        · exact hnot hm),
      if_neg hcf]
    rfl
  have hle := (hSn.subperm hsub).length_le
  rw [hSl, List.length_map] at hle
  rw [hs, List.length_cons] at hlen
  omega

/-- C19: in a consistent state with no food present whose snake has at most
20 segments, some board cell `(x, y)` passes `Game::isGoodFood`, so the
placement loop of `Game::play` has a cell to accept; and there is a
consistent state with no food and 21 segments in which no board cell
passes. -/
theorem Game.good_food_exists (g : Game) (hc : g.consistent) (hf : g.foodAbsent)
    (hlen : g.snake.bones.length ≤ 20) :
    (∃ x ∈ boardIndices, ∃ y ∈ boardIndices, g.isGoodFood x y = true) ∧
    (∃ g21 : Game, g21.consistent ∧ g21.foodAbsent ∧ g21.snake.bones.length = 21 ∧
      ∀ x ∈ boardIndices, ∀ y ∈ boardIndices, g21.isGoodFood x y = false) := by
  refine ⟨?_, scenarioCrowded, by decide, by decide, by decide, by decide⟩
  obtain ⟨b, rest, hs⟩ := List.exists_cons_of_ne_nil hc.1
  have hhead := Snake.head_coord g.snake b rest hs
  have hbon : onBoard b.coord :=
    hc.2.2.2.1 _ (by rw [Snake.coords, hs]; exact List.mem_cons_self _ _)
  rw [← hhead] at hbon
  have hkx := boardCells_off_line g.snake.getHeadX.toInt
    ((mem_boardIndices _).2 ⟨hbon.1, hbon.2.1⟩)
  have hky := boardCells_off_line g.snake.getHeadY.toInt
    ((mem_boardIndices _).2 ⟨hbon.2.2.1, hbon.2.2.2⟩)
  have hfound : ∃ c, onBoard c ∧ g.isGoodFood c.1 c.2 = true := by
    by_cases hv : g.snake.d = Direction.UP ∨ g.snake.d = Direction.DOWN
    · obtain ⟨c, hcS, hgood⟩ := Game.good_food_among g hc hf hlen
        (boardCells.filter (fun c => decide (c.1 ≠ g.snake.getHeadX.toInt)))
        (boardCells_nodup.filter _) hkx.1 (by
          intro c hcS
          rw [List.mem_filter, mem_boardCells] at hcS
          refine ⟨hcS.1, fun _ => of_decide_eq_true hcS.2, fun hh => ?_⟩
          rcases hv with hv | hv <;> rcases hh with hh | hh <;> rw [hv] at hh <;>
            exact Direction.noConfusion hh)
      exact ⟨c, (mem_boardCells c).1 (List.mem_filter.1 hcS).1, hgood⟩
    · obtain ⟨c, hcS, hgood⟩ := Game.good_food_among g hc hf hlen
        (boardCells.filter (fun c => decide (c.2 ≠ g.snake.getHeadY.toInt)))
        (boardCells_nodup.filter _) hky.2 (by
          intro c hcS
          rw [List.mem_filter, mem_boardCells] at hcS
          exact ⟨hcS.1, fun hh => absurd hh hv, fun _ => of_decide_eq_true hcS.2⟩)
      exact ⟨c, (mem_boardCells c).1 (List.mem_filter.1 hcS).1, hgood⟩
  obtain ⟨c, hon, hgood⟩ := hfound
  exact ⟨c.1, (mem_boardIndices _).2 ⟨hon.1, hon.2.1⟩, c.2,
    (mem_boardIndices _).2 ⟨hon.2.2.1, hon.2.2.2⟩, hgood⟩

/-- The instance of C19 on the reset game: one segment, no food, and a cell
that passes. -/
theorem Game.good_food_exists_witness :
    Game.new.reset.consistent ∧ Game.new.reset.foodAbsent ∧
    Game.new.reset.snake.bones.length ≤ 20 ∧
    ∃ x ∈ boardIndices, ∃ y ∈ boardIndices, Game.new.reset.isGoodFood x y = true :=
  ⟨by decide, by decide, by decide,
    (Game.good_food_exists Game.new.reset (by decide) (by decide) (by decide)).1⟩

end MicrobitSnake
